import Mathlib

set_option maxHeartbeats 1000000

/-! Shallow embedding of the streaming technical-indicator and
signal-consensus engine: the indicator library (`app/utils/strategy.py`),
the streaming analyzer (`app/coinbase_/websocket_analyser.py`), the batch
analyzer (`app/coinbase_/market_analyser.py`) and the voting agent
(`app/agents/analizer_agent.py`).  Machine floats are modelled exactly:
a value is NaN, plus or minus infinity, or a rational. -/

/-- Extended numeric value mirroring the IEEE-754 special values produced by
pandas/numpy float arithmetic: NaN, positive or negative infinity, or a
finite value (modelled exactly as a rational). -/
inductive PVal where
  | nan : PVal
  | pinf : PVal
  | ninf : PVal
  | fin : ℚ → PVal
deriving DecidableEq, Repr

namespace PVal

/-- IEEE addition: NaN propagates; opposite infinities give NaN. -/
def add : PVal → PVal → PVal
  | nan, _ => nan
  | _, nan => nan
  | pinf, ninf => nan
  | ninf, pinf => nan
  | pinf, _ => pinf
  | _, pinf => pinf
  | ninf, _ => ninf
  | _, ninf => ninf
  | fin a, fin b => fin (a + b)

/-- IEEE negation. -/
def neg : PVal → PVal
  | nan => nan
  | pinf => ninf
  | ninf => pinf
  | fin a => fin (-a)

/-- IEEE subtraction. -/
def sub (a b : PVal) : PVal := add a (neg b)

/-- IEEE multiplication: NaN propagates; infinity times zero is NaN. -/
def mul : PVal → PVal → PVal
  | nan, _ => nan
  | _, nan => nan
  | pinf, pinf => pinf
  | pinf, ninf => ninf
  | ninf, pinf => ninf
  | ninf, ninf => pinf
  | pinf, fin b => if 0 < b then pinf else if b < 0 then ninf else nan
  | fin a, pinf => if 0 < a then pinf else if a < 0 then ninf else nan
  | ninf, fin b => if 0 < b then ninf else if b < 0 then pinf else nan
  | fin a, ninf => if 0 < a then ninf else if a < 0 then pinf else nan
  | fin a, fin b => fin (a * b)

/-- IEEE division as performed by numpy on arrays: a positive finite value
divided by zero is `+inf`, a negative one is `-inf`, and `0/0` is NaN. -/
def div : PVal → PVal → PVal
  | nan, _ => nan
  | _, nan => nan
  | pinf, pinf => nan
  | pinf, ninf => nan
  | ninf, pinf => nan
  | ninf, ninf => nan
  | pinf, fin b => if b < 0 then ninf else pinf
  | ninf, fin b => if b < 0 then pinf else ninf
  | fin _, pinf => fin 0
  | fin _, ninf => fin 0
  | fin a, fin b =>
      if b = 0 then (if 0 < a then pinf else if a < 0 then ninf else nan)
      else fin (a / b)

/-- IEEE absolute value. -/
def absP : PVal → PVal
  | nan => nan
  | pinf => pinf
  | ninf => pinf
  | fin a => fin |a|

/-- IEEE strict less-than: any comparison with NaN is false. -/
def lt : PVal → PVal → Bool
  | nan, _ => false
  | _, nan => false
  | ninf, ninf => false
  | ninf, _ => true
  | _, ninf => false
  | pinf, pinf => false
  | _, pinf => true
  | pinf, _ => false
  | fin a, fin b => decide (a < b)

/-- IEEE strict greater-than: any comparison with NaN is false. -/
def gt (a b : PVal) : Bool := lt b a

/-- NaN test. -/
def isNan : PVal → Bool
  | nan => true
  | _ => false

/-- Maximum propagating NaN (plain two-argument IEEE-style max). -/
def maxP : PVal → PVal → PVal
  | nan, _ => nan
  | _, nan => nan
  | pinf, _ => pinf
  | _, pinf => pinf
  | ninf, b => b
  | a, ninf => a
  | fin a, fin b => fin (max a b)

/-- Minimum propagating NaN. -/
def minP : PVal → PVal → PVal
  | nan, _ => nan
  | _, nan => nan
  | ninf, _ => ninf
  | _, ninf => ninf
  | pinf, b => b
  | a, pinf => a
  | fin a, fin b => fin (min a b)

/-- Replace an infinity with NaN (the `replace([inf, -inf], nan)` idiom). -/
def infToNan : PVal → PVal
  | pinf => nan
  | ninf => nan
  | x => x

end PVal

/-- A pandas numeric series is a list of extended values. -/
abbrev Series := List PVal

/-- pandas `Series.iloc[-1]`: the last element; raises `IndexError` on an
empty series. -/
def ilocLast {α : Type} (xs : List α) : Except String α :=
  match xs.getLast? with
  | some a => Except.ok a
  | none => Except.error ("IndexError: single positional indexer is out-of-bounds")

/-- pandas `Series.diff()` on a float column: first entry NaN, then
consecutive differences. -/
def diffQ (xs : List ℚ) : Series :=
  match xs with
  | [] => []
  | _ :: t => PVal.nan :: List.zipWith (fun b a => PVal.fin (b - a)) t xs

/-- pandas `Series.shift(1)` on a float column: NaN then all but the last
element. -/
def shiftQ (xs : List ℚ) : Series :=
  match xs with
  | [] => []
  | _ :: _ => PVal.nan :: (xs.dropLast.map PVal.fin)

/-- pandas `s.where(cond(s), 0)`: keep the entries satisfying the condition,
replace the rest (including NaN, for which any comparison is false) by 0. -/
def whereKeep (cond : PVal → Bool) (xs : Series) : Series :=
  xs.map (fun x => if cond x then x else PVal.fin 0)

/-- pandas `Series.dropna()`: remove the NaN entries (infinities stay). -/
def dropna (xs : Series) : Series :=
  xs.filter (fun x => !x.isNan)

/-- pandas `fillna(method='bfill')`: each NaN entry is replaced by the next
non-NaN entry after it, when one exists. -/
def bfill : Series → Series
  | [] => []
  | x :: xs =>
      let rest := bfill xs
      (if x.isNan then rest.headD x else x) :: rest

/-- The trailing rolling window of width `p` ending at index `i`. -/
def rwindow (p : ℕ) (xs : Series) (i : ℕ) : Series :=
  (xs.take (i + 1)).drop (i + 1 - p)

/-- The non-NaN entries of the trailing window (pandas rolling aggregations
skip NaN; `min_periods` counts the non-NaN observations). -/
def rvalid (p : ℕ) (xs : Series) (i : ℕ) : Series :=
  (rwindow p xs i).filter (fun x => !x.isNan)

/-- Sum of a series in extended-value arithmetic. -/
def psum (l : Series) : PVal := l.foldr PVal.add (PVal.fin 0)

/-- pandas `rolling(p, min_periods=mp).mean()`. -/
def rollingMeanMP (p mp : ℕ) (xs : Series) : Series :=
  (List.range xs.length).map (fun i =>
    let v := rvalid p xs i
    if mp ≤ v.length ∧ 1 ≤ v.length then (psum v).div (PVal.fin v.length)
    else PVal.nan)

/-- pandas `rolling(p).mean()` (default `min_periods` equals the window). -/
def rollingMean (p : ℕ) (xs : Series) : Series := rollingMeanMP p p xs

/-- pandas `rolling(p, min_periods=mp).sum()`. -/
def rollingSumMP (p mp : ℕ) (xs : Series) : Series :=
  (List.range xs.length).map (fun i =>
    let v := rvalid p xs i
    if mp ≤ v.length ∧ 1 ≤ v.length then psum v else PVal.nan)

/-- pandas `rolling(p).sum()`. -/
def rollingSum (p : ℕ) (xs : Series) : Series := rollingSumMP p p xs

/-- pandas `rolling(p).max()`. -/
def rollingMax (p : ℕ) (xs : Series) : Series :=
  (List.range xs.length).map (fun i =>
    let v := rvalid p xs i
    if p ≤ v.length ∧ 1 ≤ v.length then v.foldr PVal.maxP PVal.ninf
    else PVal.nan)

/-- pandas `rolling(p).min()`. -/
def rollingMin (p : ℕ) (xs : Series) : Series :=
  (List.range xs.length).map (fun i =>
    let v := rvalid p xs i
    if p ≤ v.length ∧ 1 ≤ v.length then v.foldr PVal.minP PVal.pinf
    else PVal.nan)

/-- Extract the underlying rationals when every entry is finite. -/
def allFinQ : Series → Option (List ℚ)
  | [] => some []
  | PVal.fin q :: xs => (allFinQ xs).map (fun l => q :: l)
  | _ => none

/-- pandas `rolling(p).std()`: sample standard deviation (ddof = 1) over the
window; the square root is taken through the supplied function `sqrtF`, kept
as a parameter because exact rationals have no computable square root.
Undefined (NaN) on incomplete windows and on windows with fewer than two
observations or a non-finite entry. -/
def rollingStd (p : ℕ) (sqrtF : ℚ → ℚ) (xs : Series) : Series :=
  (List.range xs.length).map (fun i =>
    let v := rvalid p xs i
    match allFinQ v with
    | some qs =>
        if p ≤ qs.length ∧ 2 ≤ qs.length then
          let n : ℚ := qs.length
          let m : ℚ := qs.sum / n
          PVal.fin (sqrtF ((qs.map (fun x => (x - m) ^ 2)).sum / (n - 1)))
        else PVal.nan
    | none => PVal.nan)

/-- Scan step for the exponential moving average. -/
def ewmGo (a prev : ℚ) : List ℚ → List ℚ
  | [] => []
  | y :: ys =>
      let e := a * y + (1 - a) * prev
      e :: ewmGo a e ys

/-- pandas `Series.ewm(span=s, adjust=False).mean()` on a finite series:
the recurrence `e = alpha * y + (1 - alpha) * prev` with
`alpha = 2 / (span + 1)`, seeded by the first element. -/
def ewm (span : ℚ) : List ℚ → List ℚ
  | [] => []
  | x :: ys => x :: ewmGo (2 / (span + 1)) x ys

/-- Three-list pointwise combination (pandas column-wise expressions). -/
def zip3With {α β γ δ : Type} (f : α → β → γ → δ) :
    List α → List β → List γ → List δ
  | a :: as, b :: bs, c :: cs => f a b c :: zip3With f as bs cs
  | _, _, _ => []

/-- pandas `concat([...], axis=1).max(axis=1)` over three columns: row-wise
maximum skipping NaN (NaN only when all three entries are NaN). -/
def maxRow3 (a b c : PVal) : PVal :=
  match ([a, b, c].filter (fun x => !x.isNan)) with
  | [] => PVal.nan
  | l => l.foldr PVal.maxP PVal.ninf

/-- Median of a float series as pandas computes it: NaN entries are skipped;
NaN when nothing remains; for an even count, the mean of the two middle
elements of the sorted list.  Only finite entries are supported (the sole
use site produces finite-or-NaN series). -/
def medianP (xs : Series) : PVal :=
  match allFinQ (dropna xs) with
  | none => PVal.nan
  | some qs =>
      let s := qs.mergeSort (fun a b => decide (a ≤ b))
      if s.length = 0 then PVal.nan
      else if s.length % 2 = 1 then
        PVal.fin (s.getD (s.length / 2) 0)
      else
        PVal.fin ((s.getD (s.length / 2 - 1) 0 + s.getD (s.length / 2) 0) / 2)

/-- numpy `log` lifted to extended values through an abstract real logarithm
`logF` on the positive rationals: `log 0 = -inf`, `log` of a negative value
is NaN. -/
def pvalLog (logF : ℚ → ℚ) : PVal → PVal
  | PVal.nan => PVal.nan
  | PVal.pinf => PVal.pinf
  | PVal.ninf => PVal.nan
  | PVal.fin q =>
      if 0 < q then PVal.fin (logF q)
      else if q = 0 then PVal.ninf
      else PVal.nan

/-! Indicator library `app/utils/strategy.py`.  Each function takes the
relevant columns of the historical-data frame as rational lists; fallible
positional indexing (`iloc`) runs in `Except`. -/

namespace Strategy

/-- strategy.calculate_rsi: guard for short windows, rolling means of gains
and losses, `RSI = 100 - 100 / (1 + RS)`, and the threshold signal. -/
def calculate_rsi (close : List ℚ) (period : ℕ) :
    Except String (String × Option PVal) :=
  if close.length < period then Except.ok ("NEUTRAL", none)
  else
    let delta := diffQ close
    let gain := rollingMean period (whereKeep (fun d => PVal.gt d (PVal.fin 0)) delta)
    let loss := (rollingMean period (whereKeep (fun d => PVal.lt d (PVal.fin 0)) delta)).map PVal.neg
    let rs := List.zipWith PVal.div gain loss
    let rsi := rs.map (fun r =>
      PVal.sub (PVal.fin 100) (PVal.div (PVal.fin 100) (PVal.add (PVal.fin 1) r)))
    do
      let last ← ilocLast rsi
      let signal :=
        if PVal.gt last (PVal.fin 70) then "SELL"
        else if PVal.lt last (PVal.fin 30) then "BUY"
        else "NEUTRAL"
      pure (signal, some last)

/-- strategy.calculate_macd: EMAs of the close, MACD line and signal line,
compared at the last position. -/
def calculate_macd (close : List ℚ) (short_period long_period signal_period : ℕ) :
    Except String (String × Option ℚ) :=
  if close.length < long_period then Except.ok ("NEUTRAL", none)
  else
    let short_ema := ewm (short_period : ℚ) close
    let long_ema := ewm (long_period : ℚ) close
    let macd := List.zipWith (fun a b => a - b) short_ema long_ema
    let signal_line := ewm (signal_period : ℚ) macd
    do
      let m ← ilocLast macd
      let s ← ilocLast signal_line
      let signal :=
        if m > s then "BUY"
        else if m < s then "SELL"
        else "NEUTRAL"
      pure (signal, some m)

/-- strategy.calculate_sma: rolling mean of the close; BUY when the latest
price is above the latest SMA, else SELL. -/
def calculate_sma (close : List ℚ) (period : ℕ) :
    Except String (String × Option PVal) :=
  if close.length < period then Except.ok ("NEUTRAL", none)
  else
    let sma_series := rollingMean period (close.map PVal.fin)
    do
      let latest_price ← ilocLast close
      let latest_sma ← ilocLast sma_series
      let signal := if PVal.gt (PVal.fin latest_price) latest_sma then "BUY" else "SELL"
      pure (signal, some latest_sma)

/-- strategy.calculate_bollinger_bands: SMA plus/minus `num_std_dev` rolling
standard deviations; the signal compares the latest close with the bands. -/
def calculate_bollinger_bands (close : List ℚ) (period : ℕ) (num_std_dev : ℚ)
    (sqrtF : ℚ → ℚ) :
    Except String (String × (Option PVal × Option PVal)) :=
  if close.length < period then Except.ok ("NEUTRAL", (none, none))
  else
    let closeS := close.map PVal.fin
    let sma := rollingMean period closeS
    let rolling_std := rollingStd period sqrtF closeS
    let upper_band := List.zipWith PVal.add sma
      (rolling_std.map (fun s => PVal.mul s (PVal.fin num_std_dev)))
    let lower_band := List.zipWith PVal.sub sma
      (rolling_std.map (fun s => PVal.mul s (PVal.fin num_std_dev)))
    do
      let c ← ilocLast close
      let ub ← ilocLast upper_band
      let lb ← ilocLast lower_band
      let signal :=
        if PVal.lt (PVal.fin c) lb then "BUY"
        else if PVal.gt (PVal.fin c) ub then "SELL"
        else "NEUTRAL"
      pure (signal, (some ub, some lb))

/-- strategy.calculate_adx: despite its name the body computes the Ichimoku
Cloud lines (its own docstring says so), requires 52 rows, and always
returns a `None` value.  The `period` parameter of the source is unused. -/
def calculate_adx (close high low : List ℚ) (_period : ℕ) :
    Except String (String × Option PVal) :=
  if close.length < 52 then Except.ok ("NEUTRAL", none)
  else
    let highS := high.map PVal.fin
    let lowS := low.map PVal.fin
    let high_9 := rollingMax 9 highS
    let low_9 := rollingMin 9 lowS
    let tenkan_sen := List.zipWith (fun a b => PVal.div (PVal.add a b) (PVal.fin 2)) high_9 low_9
    let high_26 := rollingMax 26 highS
    let low_26 := rollingMin 26 lowS
    let kijun_sen := List.zipWith (fun a b => PVal.div (PVal.add a b) (PVal.fin 2)) high_26 low_26
    let high_52 := rollingMax 52 highS
    let low_52 := rollingMin 52 lowS
    let _senkou_span_b := List.zipWith (fun a b => PVal.div (PVal.add a b) (PVal.fin 2)) high_52 low_52
    let spanA0 := List.zipWith (fun a b => PVal.div (PVal.add a b) (PVal.fin 2)) tenkan_sen kijun_sen
    -- `.shift(26)`: twenty-six leading NaN, the tail dropped
    let senkou_span_a := List.replicate (min 26 spanA0.length) PVal.nan ++
      spanA0.take (spanA0.length - 26)
    -- Chikou span (`close.shift(-26)`) is computed by the source but unused
    let _chikou_span := (close.drop 26).map PVal.fin ++
      List.replicate (min 26 close.length) PVal.nan
    do
      let c ← ilocLast close
      let sa ← ilocLast senkou_span_a
      let ts ← ilocLast tenkan_sen
      let ks ← ilocLast kijun_sen
      let signal :=
        if PVal.gt (PVal.fin c) sa ∧ PVal.gt ts ks then "BUY"
        else if PVal.lt (PVal.fin c) sa ∧ PVal.lt ts ks then "SELL"
        else "NEUTRAL"
      pure (signal, none)

/-- strategy.calculate_vtr: rolling standard deviation of log-returns scaled
by the square root of the period; BUY when the latest volatility is below
the series median.  The real-valued log and square root are parameters. -/
def calculate_vtr (close : List ℚ) (period : ℕ) (logF sqrtF : ℚ → ℚ) :
    Except String (String × Option PVal) :=
  if close.length < period then Except.ok ("NEUTRAL", none)
  else
    let ratios := List.zipWith PVal.div (close.map PVal.fin) (shiftQ close)
    let log_returns := ratios.map (pvalLog logF)
    let volatility := (rollingStd period sqrtF log_returns).map
      (fun s => PVal.mul s (PVal.fin (sqrtF (period : ℚ))))
    do
      let v ← ilocLast volatility
      let signal := if PVal.lt v (medianP volatility) then "BUY" else "SELL"
      pure (signal, some v)

/-- strategy.calculate_stochastic: `%K` from the rolling low/high range and
`%D` as its rolling mean; the signal compares the two at the last position.
The `smooth_k` parameter of the source is unused. -/
def calculate_stochastic (close high low : List ℚ) (period : ℕ)
    (_smooth_k smooth_d : ℕ) :
    Except String (String × (Option PVal × Option PVal)) :=
  if close.length < period then Except.ok ("NEUTRAL", (none, none))
  else
    let lowest_low := rollingMin period (low.map PVal.fin)
    let highest_high := rollingMax period (high.map PVal.fin)
    let k := zip3With (fun c ll hh =>
      PVal.div (PVal.mul (PVal.fin 100) (PVal.sub c ll)) (PVal.sub hh ll))
      (close.map PVal.fin) lowest_low highest_high
    let d := rollingMean smooth_d k
    do
      let kl ← ilocLast k
      let dl ← ilocLast d
      let signal :=
        if PVal.gt kl dl then "BUY"
        else if PVal.lt kl dl then "SELL"
        else "NEUTRAL"
      pure (signal, (some kl, some dl))

/-- strategy.check_risk: distinct error state for non-positive balance or
price, otherwise the position size from the risk amount. -/
def check_risk (balance price risk_threshold : ℚ) : String × Option ℚ :=
  if balance ≤ 0 ∨ price ≤ 0 then ("Invalid Input", none)
  else
    let risk_amount := balance * risk_threshold / 100
    let position_size := risk_amount / price
    ("Position Size", some position_size)

end Strategy

/-! Streaming analyzer `app/coinbase_/websocket_analyser.py`.  The historical
data frame is given as its three columns (close, high, low); a strategy
result is a Python value later compared with the string BUY or SELL via
`str(result) == ...`, so results that are tuples or series can never match. -/

/-- A value produced by one of `WebSocketAnalyzer`'s strategy methods: a
plain string signal, a `(signal, value)` tuple (from `calculate_sma`), or a
whole pandas series (from `calculate_vtr` and
`calculate_stochastic_oscillator`).  `str(result)` of a tuple or a series is
never the bare string BUY or SELL. -/
inductive StratResult where
  | strSig (s : String) : StratResult
  | pairSig (s : String) (v : Option PVal) : StratResult
  | seriesSig (xs : Series) : StratResult
deriving DecidableEq

deriving instance DecidableEq for Except

/-- Python `str(result) == "BUY"`. -/
def strEqBuy : StratResult → Bool
  | StratResult.strSig s => s == "BUY"
  | _ => false

/-- Python `str(result) == "SELL"`. -/
def strEqSell : StratResult → Bool
  | StratResult.strSig s => s == "SELL"
  | _ => false

namespace WS

/-- WebSocketAnalyzer.calculate_rsi: no short-window guard; the NaN produced
on short windows fails both threshold comparisons and falls through to
NEUTRAL; an empty frame raises on `iloc[-1]`. -/
def calculate_rsi (close : List ℚ) (period : ℕ) : Except String String :=
  let delta := diffQ close
  let gain := rollingMean period (whereKeep (fun d => PVal.gt d (PVal.fin 0)) delta)
  let loss := rollingMean period ((whereKeep (fun d => PVal.lt d (PVal.fin 0)) delta).map PVal.neg)
  let rs := List.zipWith PVal.div gain loss
  let rsi := rs.map (fun r =>
    PVal.sub (PVal.fin 100) (PVal.div (PVal.fin 100) (PVal.add (PVal.fin 1) r)))
  do
    let last ← ilocLast rsi
    if PVal.gt last (PVal.fin 70) then pure "SELL"
    else if PVal.lt last (PVal.fin 30) then pure "BUY"
    else pure "NEUTRAL"

/-- WebSocketAnalyzer.calculate_macd. -/
def calculate_macd (close : List ℚ) (short_period long_period signal_period : ℕ) :
    Except String String :=
  let short_ema := ewm (short_period : ℚ) close
  let long_ema := ewm (long_period : ℚ) close
  let macd := List.zipWith (fun a b => a - b) short_ema long_ema
  let signal_line := ewm (signal_period : ℚ) macd
  do
    let m ← ilocLast macd
    let s ← ilocLast signal_line
    if m > s then pure "BUY"
    else if m < s then pure "SELL"
    else pure "NEUTRAL"

/-- WebSocketAnalyzer.calculate_sma: short windows and all-NaN series give
`("NEUTRAL", None)`; otherwise a `(signal, value)` tuple. -/
def calculate_sma (close : List ℚ) (period : ℕ) :
    Except String (String × Option PVal) :=
  if close.length < period then Except.ok ("NEUTRAL", none)
  else
    let sma_series := rollingMean period (close.map PVal.fin)
    if sma_series.all (fun x => x.isNan) then Except.ok ("NEUTRAL", none)
    else do
      let latest_price ← ilocLast close
      let latest_sma ← ilocLast sma_series
      if PVal.gt (PVal.fin latest_price) latest_sma then pure ("BUY", some latest_sma)
      else pure ("SELL", some latest_sma)

/-- WebSocketAnalyzer.calculate_bollinger_bands: takes the SMA tuple, returns
the string Error when the SMA value is `None` (the `isinstance` check; a
numpy float64, NaN included, always passes it), then compares the latest
close with the bands built from the scalar SMA. -/
def calculate_bollinger_bands (close : List ℚ) (period : ℕ) (num_std_dev : ℚ)
    (sqrtF : ℚ → ℚ) : Except String String := do
  let sp ← calculate_sma close period
  match sp.2 with
  | none => pure "Error"
  | some sma_val =>
    let rolling_std := rollingStd period sqrtF (close.map PVal.fin)
    -- dead branch in the source: the SMA signal is never the string Neutral
    if sp.1 = "Neutral" ∧ rolling_std.any (fun x => x.isNan) then pure "Error"
    else
      let upper_band := rolling_std.map (fun s =>
        PVal.add sma_val (PVal.mul s (PVal.fin num_std_dev)))
      let lower_band := rolling_std.map (fun s =>
        PVal.sub sma_val (PVal.mul s (PVal.fin num_std_dev)))
      do
        let c ← ilocLast close
        let lb ← ilocLast lower_band
        let ub ← ilocLast upper_band
        if PVal.lt (PVal.fin c) lb then pure "BUY"
        else if PVal.gt (PVal.fin c) ub then pure "SELL"
        else pure "NEUTRAL"

/-- WebSocketAnalyzer.calculate_adx: directional movement keeps any positive
difference (no comparison between +DM and -DM in this variant), and the ADX
series falls back to SELL whenever the last value is NaN (every comparison
with NaN is false). -/
def calculate_adx (close high low : List ℚ) (period : ℕ) : Except String String :=
  let highS := high.map PVal.fin
  let lowS := low.map PVal.fin
  let tr := zip3With maxRow3
    (List.zipWith PVal.sub highS lowS)
    ((List.zipWith PVal.sub highS (shiftQ close)).map PVal.absP)
    ((List.zipWith PVal.sub lowS (shiftQ close)).map PVal.absP)
  let atr := rollingMean period tr
  let plus_dm := whereKeep (fun x => PVal.gt x (PVal.fin 0)) (diffQ high)
  let minus_dm := whereKeep (fun x => PVal.gt x (PVal.fin 0)) (diffQ low)
  let plus_di := (List.zipWith PVal.div (rollingSum period plus_dm) atr).map
    (fun x => PVal.mul (PVal.fin 100) x)
  let minus_di := (List.zipWith PVal.div (rollingSum period minus_dm) atr).map
    (fun x => PVal.mul (PVal.fin 100) x)
  let adx := rollingMean period (List.zipWith (fun p m =>
    PVal.mul (PVal.div (PVal.absP (PVal.sub p m)) (PVal.absP (PVal.add p m)))
      (PVal.fin 100)) plus_di minus_di)
  do
    let a ← ilocLast adx
    if PVal.gt a (PVal.fin 25) then pure "BUY" else pure "SELL"

/-- WebSocketAnalyzer.calculate_vtr: returns the whole rolling-std series,
not a signal string. -/
def calculate_vtr (close : List ℚ) (period : ℕ) (sqrtF : ℚ → ℚ) : Series :=
  rollingStd period sqrtF (close.map PVal.fin)

/-- WebSocketAnalyzer.calculate_stochastic_oscillator: returns the whole %K
series, not a signal string. -/
def calculate_stochastic_oscillator (close high low : List ℚ) (period : ℕ) : Series :=
  let low_min := rollingMin period (low.map PVal.fin)
  let high_max := rollingMax period (high.map PVal.fin)
  zip3With (fun c lm hm =>
    PVal.div (PVal.mul (PVal.fin 100) (PVal.sub c lm)) (PVal.sub hm lm))
    (close.map PVal.fin) low_min high_max

/-- WebSocketAnalyzer.run_strategies: the seven results in order; the SMA
result is a tuple and the VTR and stochastic results are series. -/
def run_strategies (close high low : List ℚ) (period : ℕ) (sqrtF : ℚ → ℚ) :
    Except String (List StratResult) := do
  let r1 ← calculate_rsi close period
  let r2 ← calculate_macd close 12 26 9
  let r3 ← calculate_sma close period
  let r4 ← calculate_bollinger_bands close period 2 sqrtF
  let r5 ← calculate_adx close high low period
  let r6 := calculate_vtr close period sqrtF
  let r7 := calculate_stochastic_oscillator close high low period
  pure [StratResult.strSig r1, StratResult.strSig r2, StratResult.pairSig r3.1 r3.2,
    StratResult.strSig r4, StratResult.strSig r5, StratResult.seriesSig r6,
    StratResult.seriesSig r7]

/-- WebSocketAnalyzer.calculate_signal: counts results whose `str` equals
BUY or SELL; BUY needs at least five votes, SELL at least four. -/
def calculate_signal (strategy_results : List StratResult) : String :=
  let buy_count := strategy_results.countP strEqBuy
  let sell_count := strategy_results.countP strEqSell
  if buy_count ≥ 5 then "BUY"
  else if sell_count ≥ 4 then "SELL"
  else "NEUTRAL"

/-- WebSocketAnalyzer.calculate_position_size. -/
def calculate_position_size (balance risk_threshold price : ℚ) : ℚ :=
  let risk_amount := balance * risk_threshold / 100
  risk_amount / price

/-- WebSocketAnalyzer.check_risk: false when the position size times the
price exceeds the risk amount. -/
def check_risk (balance risk_threshold price : ℚ) : Bool :=
  let position_size := calculate_position_size balance risk_threshold price
  let risk_amount := balance * risk_threshold / 100
  if position_size * price > risk_amount then false else true

/-- WebSocketAnalyzer.analyze, after the websocket batch has been folded into
the historical data: run the strategies, derive the consensus signal, and
gate it behind check_risk. -/
def analyze (close high low : List ℚ) (period : ℕ) (sqrtF : ℚ → ℚ)
    (balance risk_threshold price : ℚ) : Except String String := do
  let strategy_results ← run_strategies close high low period sqrtF
  let signal := calculate_signal strategy_results
  if check_risk balance risk_threshold price then pure signal
  else pure "No Action"

end WS

/-! Batch analyzer `app/coinbase_/market_analyser.py`. -/

namespace MK

/-- MarketAnalyzer.calculate_rsi: the whole RSI series. -/
def calculate_rsi (close : List ℚ) (period : ℕ) : Series :=
  let delta := diffQ close
  let gain := rollingMean period (whereKeep (fun d => PVal.gt d (PVal.fin 0)) delta)
  let loss := rollingMean period ((whereKeep (fun d => PVal.lt d (PVal.fin 0)) delta).map PVal.neg)
  let rs := List.zipWith PVal.div gain loss
  rs.map (fun r =>
    PVal.sub (PVal.fin 100) (PVal.div (PVal.fin 100) (PVal.add (PVal.fin 1) r)))

/-- MarketAnalyzer.calculate_macd: MACD line and signal line. -/
def calculate_macd (close : List ℚ) (short_period long_period signal_period : ℕ) :
    Series × Series :=
  let short_ema := ewm (short_period : ℚ) close
  let long_ema := ewm (long_period : ℚ) close
  let macd := List.zipWith (fun a b => a - b) short_ema long_ema
  let signal_line := ewm (signal_period : ℚ) macd
  (macd.map PVal.fin, signal_line.map PVal.fin)

/-- MarketAnalyzer.calculate_sma. -/
def calculate_sma (close : List ℚ) (period : ℕ) : Series :=
  rollingMean period (close.map PVal.fin)

/-- MarketAnalyzer.calculate_bollinger_bands: upper and lower bands. -/
def calculate_bollinger_bands (close : List ℚ) (period : ℕ) (num_std_dev : ℚ)
    (sqrtF : ℚ → ℚ) : Series × Series :=
  let sma := calculate_sma close period
  let rolling_std := rollingStd period sqrtF (close.map PVal.fin)
  (List.zipWith PVal.add sma (rolling_std.map (fun s => PVal.mul s (PVal.fin num_std_dev))),
   List.zipWith PVal.sub sma (rolling_std.map (fun s => PVal.mul s (PVal.fin num_std_dev))))

/-- MarketAnalyzer.calculate_adx, +DM stage:
`plus_dm.where((plus_dm > minus_dm) & (plus_dm > 0), 0)` on the raw
differences of high and low. -/
def adx_plus_dm (high low : List ℚ) : Series :=
  List.zipWith (fun p m =>
    if PVal.gt p m && PVal.gt p (PVal.fin 0) then p else PVal.fin 0)
    (diffQ high) (diffQ low)

/-- MarketAnalyzer.calculate_adx, -DM stage: the source compares the raw low
difference against the ALREADY FILTERED +DM
(`minus_dm.where((minus_dm > plus_dm) & (minus_dm > 0), 0)` runs after
`plus_dm` has been reassigned). -/
def adx_minus_dm (high low : List ℚ) : Series :=
  List.zipWith (fun m p =>
    if PVal.gt m p && PVal.gt m (PVal.fin 0) then m else PVal.fin 0)
    (diffQ low) (adx_plus_dm high low)

/-- MarketAnalyzer.calculate_adx: true range, ATR and the DI/DX/ADX pipeline,
with `min_periods=1` rolling statistics and backfill of undefined entries. -/
def calculate_adx (close high low : List ℚ) (period : ℕ) :
    Series × Series × Series :=
  let highS := high.map PVal.fin
  let lowS := low.map PVal.fin
  let tr1 := List.zipWith PVal.sub highS lowS
  let tr2 := (List.zipWith PVal.sub highS (shiftQ close)).map PVal.absP
  let tr3 := (List.zipWith PVal.sub lowS (shiftQ close)).map PVal.absP
  let tr := zip3With maxRow3 tr1 tr2 tr3
  let atr := bfill (rollingMeanMP period 1 tr)
  let plus_dm := adx_plus_dm high low
  let minus_dm := adx_minus_dm high low
  let plus_di := (List.zipWith PVal.div (rollingSumMP period 1 plus_dm) atr).map
    (fun x => PVal.mul (PVal.fin 100) x)
  let minus_di := (List.zipWith PVal.div (rollingSumMP period 1 minus_dm) atr).map
    (fun x => PVal.mul (PVal.fin 100) x)
  let dx := bfill ((List.zipWith (fun p m =>
    PVal.mul (PVal.fin 100) (PVal.div (PVal.absP (PVal.sub p m)) (PVal.add p m)))
    plus_di minus_di).map PVal.infToNan)
  let adx := bfill (rollingMeanMP period 1 dx)
  (adx, plus_di, minus_di)

/-- MarketAnalyzer.calculate_vtr. -/
def calculate_vtr (close : List ℚ) (period : ℕ) (sqrtF : ℚ → ℚ) : Series :=
  rollingStd period sqrtF (close.map PVal.fin)

/-- MarketAnalyzer.calculate_stochastic_oscillator. -/
def calculate_stochastic_oscillator (close high low : List ℚ) (period : ℕ) : Series :=
  let low_min := rollingMin period (low.map PVal.fin)
  let high_max := rollingMax period (high.map PVal.fin)
  zip3With (fun c lm hm =>
    PVal.div (PVal.mul (PVal.fin 100) (PVal.sub c lm)) (PVal.sub hm lm))
    (close.map PVal.fin) low_min high_max

/-- SMA rule of MarketAnalyzer.evaluate_signals on the NaN-free series:
`Bullish` when `sma.iloc[-1] > sma.iloc[-2]` — latest SMA against previous
SMA, not price against SMA. -/
def sma_signal_rule (smaD : Series) : String :=
  if 1 < smaD.length then
    match smaD.getLast?, smaD.dropLast.getLast? with
    | some a, some b => if PVal.gt a b then "Bullish" else "Bearish"
    | _, _ => "No Data Available"
  else "No Data Available"

/-- MarketAnalyzer.evaluate_signals: drops NaN from every series, guards all
indicators except the stochastic one (whose last element is read without an
emptiness check), computes the stochastic signal but discards it, and
returns SIX signals. -/
def evaluate_signals (price : ℚ)
    (rsi macd signal_line sma upper_band lower_band adx vtr stx : Series) :
    Except String (List String) :=
  let rsiD := dropna rsi
  let macdD := dropna macd
  let sigD := dropna signal_line
  let smaD := dropna sma
  let upperD := dropna upper_band
  let lowerD := dropna lower_band
  let adxD := dropna adx
  let vtrD := dropna vtr
  let stxD := dropna stx
  let rsi_signal :=
    match rsiD.getLast? with
    | some v =>
        if PVal.lt v (PVal.fin 30) then "Oversold"
        else if PVal.gt v (PVal.fin 70) then "Overbought"
        else "Neutral"
    | none => "No Data Available"
  let macd_signal :=
    match macdD.getLast?, sigD.getLast? with
    | some m, some s => if PVal.gt m s then "Bullish" else "Bearish"
    | _, _ => "No Data Available"
  let sma_signal := sma_signal_rule smaD
  let bollinger_signal :=
    match upperD.getLast?, lowerD.getLast? with
    | some ub, some lb =>
        if PVal.lt (PVal.fin price) lb then "Buy"
        else if PVal.gt (PVal.fin price) ub then "Sell"
        else "Neutral"
    | _, _ => "No Data Available"
  let adx_signal :=
    match adxD.getLast? with
    | some a => if PVal.gt a (PVal.fin 25) then "Strong Trend" else "Weak Trend"
    | none => "No Data Available"
  let vtr_signal :=
    match vtrD.getLast? with
    | some v => if PVal.gt v (PVal.fin 1) then "High Volatility" else "Low Volatility"
    | none => "No Data Available"
  match stxD.getLast? with
  | none => Except.error ("IndexError: single positional indexer is out-of-bounds")
  | some sv =>
      let _stochastic_signal :=
        if PVal.gt sv (PVal.fin 80) then "Overbought"
        else if PVal.lt sv (PVal.fin 20) then "Oversold"
        else "Neutral"
      Except.ok [rsi_signal, macd_signal, sma_signal, bollinger_signal,
        adx_signal, vtr_signal]

/-- Python tuple unpacking `a, b, c, d, e, f, g = xs`: raises ValueError
unless the right-hand side has exactly seven elements. -/
def unpack7 (xs : List String) :
    Except String (String × String × String × String × String × String × String) :=
  match xs with
  | [a, b, c, d, e, f, g] => Except.ok (a, b, c, d, e, f, g)
  | _ => Except.error ("ValueError: not enough values to unpack")

/-- MarketAnalyzer.calculate_position_size. -/
def calculate_position_size (portfolio_value risk_percentage price : ℚ) : ℚ :=
  portfolio_value * risk_percentage / price

/-- MarketAnalyzer.calculate_stop_loss. -/
def calculate_stop_loss (price loss_percentage : ℚ) : ℚ :=
  price * (1 - loss_percentage)

/-- MarketAnalyzer.make_decision. -/
def make_decision (rsi_signal macd_signal sma_signal bollinger_signal
    _adx_signal _vtr_signal : String) : String :=
  if rsi_signal = "Oversold" ∧ macd_signal = "Bullish" ∧ sma_signal = "Bullish" ∧
      bollinger_signal = "Buy" then "Buy"
  else if rsi_signal = "Overbought" ∧ macd_signal = "Bearish" ∧
      sma_signal = "Bearish" ∧ bollinger_signal = "Sell" then "Sell"
  else "Hold"

/-- The record MarketAnalyzer.analyze would return. -/
structure AnalysisResult where
  decision : String
  position_size : ℚ
  stop_loss : ℚ
  rsi_signal : String
  macd_signal : String
  sma_signal : String
  bollinger_signal : String
  adx_signal : String
  vtr_signal : String
deriving DecidableEq

/-- MarketAnalyzer.analyze: computes every indicator, calls evaluate_signals,
and unpacks its result into SEVEN names. -/
def analyze (close high low : List ℚ) (price portfolio_value risk_percentage
    loss_percentage : ℚ) (period : ℕ) (sqrtF : ℚ → ℚ) :
    Except String AnalysisResult := do
  let rsi := calculate_rsi close period
  let (macd, signal_line) := calculate_macd close 12 26 9
  let sma := calculate_sma close period
  let (upper_band, lower_band) := calculate_bollinger_bands close period 2 sqrtF
  let (adx, _plus_di, _minus_di) := calculate_adx close high low period
  let vtr := calculate_vtr close period sqrtF
  let stx := calculate_stochastic_oscillator close high low period
  let sigs ← evaluate_signals price rsi macd signal_line sma upper_band lower_band adx vtr stx
  let (rsi_s, macd_s, sma_s, boll_s, adx_s, vtr_s, _stoch_s) ← unpack7 sigs
  let position_size := calculate_position_size portfolio_value risk_percentage price
  let stop_loss := calculate_stop_loss price loss_percentage
  let decision := make_decision rsi_s macd_s sma_s boll_s adx_s vtr_s
  -- plot_indicators only draws charts and does not affect the returned value
  pure (AnalysisResult.mk decision position_size stop_loss rsi_s macd_s sma_s
    boll_s adx_s vtr_s)

end MK

/-! Voting agent `app/agents/analizer_agent.py`. -/

namespace Agent

/-- AnalyzerAgent.analyze, vote-count stage: each indicator result is a
`(signal, value)` pair; BUY with at least three BUY firsts, SELL with at
least three SELL firsts, else HOLD. -/
def analyzer_signal (analysis_results : List (String × Option PVal)) : String :=
  let buy_signals := analysis_results.countP (fun kv => kv.1 == "BUY")
  let sell_signals := analysis_results.countP (fun kv => kv.1 == "SELL")
  if buy_signals ≥ 3 then "BUY"
  else if sell_signals ≥ 3 then "SELL"
  else "HOLD"

end Agent

/-! ADX as the specification words it, for the refinement comparison of the
source against the spec. -/

namespace SpecModel

/-- Modelled from the spec: `+DM = high_t - high_{t-1}` kept only when
positive and greater than the corresponding raw `-DM`, else 0. -/
def plus_dm_rule (p m : PVal) : PVal :=
  if PVal.gt p m && PVal.gt p (PVal.fin 0) then p else PVal.fin 0

/-- Modelled from the spec: the symmetric rule for `-DM`, against the raw
`+DM`. -/
def minus_dm_rule (p m : PVal) : PVal :=
  if PVal.gt m p && PVal.gt m (PVal.fin 0) then m else PVal.fin 0

/-- Modelled from the spec: true range, ATR as rolling mean of the true
range, directional movement by the symmetric rules, `+DI`/`-DI` as
`100 * rolling_sum(DM, period) / ATR`,
`DX = 100 * abs(+DI - -DI) / (+DI + -DI)`, and ADX as the rolling mean of
DX; plain full-window rolling statistics with NaN propagation. -/
def adx (close high low : List ℚ) (period : ℕ) : Series :=
  let highS := high.map PVal.fin
  let lowS := low.map PVal.fin
  let tr := zip3With (fun a b c => PVal.maxP a (PVal.maxP b c))
    (List.zipWith PVal.sub highS lowS)
    ((List.zipWith PVal.sub highS (shiftQ close)).map PVal.absP)
    ((List.zipWith PVal.sub lowS (shiftQ close)).map PVal.absP)
  let atr := rollingMean period tr
  let pdm := List.zipWith plus_dm_rule (diffQ high) (diffQ low)
  let mdm := List.zipWith minus_dm_rule (diffQ high) (diffQ low)
  let pdi := (List.zipWith PVal.div (rollingSum period pdm) atr).map
    (fun x => PVal.mul (PVal.fin 100) x)
  let mdi := (List.zipWith PVal.div (rollingSum period mdm) atr).map
    (fun x => PVal.mul (PVal.fin 100) x)
  let dx := List.zipWith (fun p m =>
    PVal.mul (PVal.fin 100) (PVal.div (PVal.absP (PVal.sub p m)) (PVal.add p m)))
    pdi mdi
  rollingMean period dx

end SpecModel

/-! Shared helper lemmas about the series operations. -/

lemma diffQ_length (xs : List ℚ) : (diffQ xs).length = xs.length := by
  cases xs with
  | nil => rfl
  | cons a t => simp [diffQ]

lemma whereKeep_length (c : PVal → Bool) (xs : Series) :
    (whereKeep c xs).length = xs.length := by
  simp [whereKeep]

lemma rollingMeanMP_length (p mp : ℕ) (xs : Series) :
    (rollingMeanMP p mp xs).length = xs.length := by
  simp [rollingMeanMP]

lemma rollingStd_length (p : ℕ) (f : ℚ → ℚ) (xs : Series) :
    (rollingStd p f xs).length = xs.length := by
  simp [rollingStd]

lemma rollingMeanMP_getElem (p mp : ℕ) (xs : Series) (i : ℕ) (hin : i < xs.length) :
    (rollingMeanMP p mp xs)[i]? = some (
      if mp ≤ (rvalid p xs i).length ∧ 1 ≤ (rvalid p xs i).length then
        (psum (rvalid p xs i)).div (PVal.fin ((rvalid p xs i).length : ℚ))
      else PVal.nan) := by
  simp [rollingMeanMP, List.getElem?_map, List.getElem?_range, hin]

lemma rwindow_length (p : ℕ) (xs : Series) (i : ℕ)
    (hp : p ≤ i + 1) (hin : i < xs.length) : (rwindow p xs i).length = p := by
  simp [rwindow]
  omega

lemma rwindow_map (p : ℕ) (f : PVal → PVal) (xs : Series) (i : ℕ) :
    rwindow p (xs.map f) i = (rwindow p xs i).map f := by
  simp [rwindow, List.map_take, List.map_drop]

lemma rwindow_subset (p : ℕ) (xs : Series) (i : ℕ) (x : PVal)
    (hx : x ∈ rwindow p xs i) : x ∈ xs := by
  exact List.mem_of_mem_take (List.mem_of_mem_drop hx)

lemma rvalid_eq_rwindow (p : ℕ) (xs : Series) (i : ℕ)
    (h : ∀ x ∈ rwindow p xs i, ¬ x.isNan = true) :
    rvalid p xs i = rwindow p xs i := by
  unfold rvalid
  rw [List.filter_eq_self]
  intro a ha
  simpa using h a ha

lemma psum_fin_all (w : Series)
    (h : ∀ x ∈ w, ∃ q, x = PVal.fin q ∧ 0 ≤ q) :
    ∃ s, psum w = PVal.fin s ∧ 0 ≤ s := by
  induction w with
  | nil => exact ⟨0, rfl, le_refl 0⟩
  | cons a t ih =>
      obtain ⟨s, hs, hsn⟩ := ih (fun x hx => h x (List.mem_cons_of_mem a hx))
      obtain ⟨q, hq, hqn⟩ := h a (List.mem_cons_self a t)
      refine ⟨q + s, ?_, by linarith⟩
      simp [psum] at hs ⊢
      rw [hq, hs]
      simp [PVal.add]

lemma psum_fin_pos (w : Series)
    (h : ∀ x ∈ w, ∃ q, x = PVal.fin q ∧ 0 < q) (hne : w ≠ []) :
    ∃ s, psum w = PVal.fin s ∧ 0 < s := by
  cases w with
  | nil => exact absurd rfl hne
  | cons a t =>
      obtain ⟨s, hs, hsn⟩ := psum_fin_all t
        (fun x hx => by
          obtain ⟨q, hq, hqp⟩ := h x (List.mem_cons_of_mem a hx)
          exact ⟨q, hq, le_of_lt hqp⟩)
      obtain ⟨q, hq, hqp⟩ := h a (List.mem_cons_self a t)
      refine ⟨q + s, ?_, by linarith⟩
      simp [psum] at hs ⊢
      rw [hq, hs]
      simp [PVal.add]

lemma psum_fin_nonpos (w : Series)
    (h : ∀ x ∈ w, ∃ q, x = PVal.fin q ∧ q ≤ 0) :
    ∃ s, psum w = PVal.fin s ∧ s ≤ 0 := by
  induction w with
  | nil => exact ⟨0, rfl, le_refl 0⟩
  | cons a t ih =>
      obtain ⟨s, hs, hsn⟩ := ih (fun x hx => h x (List.mem_cons_of_mem a hx))
      obtain ⟨q, hq, hqn⟩ := h a (List.mem_cons_self a t)
      refine ⟨q + s, ?_, by linarith⟩
      simp [psum] at hs ⊢
      rw [hq, hs]
      simp [PVal.add]

lemma psum_all_zero (w : Series) (h : ∀ x ∈ w, x = PVal.fin 0) :
    psum w = PVal.fin 0 := by
  induction w with
  | nil => rfl
  | cons a t ih =>
      have ha := h a (List.mem_cons_self a t)
      have ht := ih (fun x hx => h x (List.mem_cons_of_mem a hx))
      simp [psum] at ht ⊢
      rw [ha, ht]
      simp [PVal.add]

lemma mem_diffQ (xs : List ℚ) (x : PVal) (hx : x ∈ diffQ xs) :
    x = PVal.nan ∨ ∃ q, x = PVal.fin q := by
  cases xs with
  | nil => simp [diffQ] at hx
  | cons a t =>
      simp only [diffQ, List.mem_cons] at hx
      rcases hx with h | h
      · exact Or.inl h
      · right
        have : ∀ (u v : List ℚ) (y : PVal),
            y ∈ List.zipWith (fun b a => PVal.fin (b - a)) u v → ∃ q, y = PVal.fin q := by
          intro u
          induction u with
          | nil => intro v y hy; simp at hy
          | cons b u ih =>
              intro v y hy
              cases v with
              | nil => simp at hy
              | cons c v =>
                  simp only [List.zipWith, List.mem_cons] at hy
                  rcases hy with hy | hy
                  · exact ⟨b - c, hy⟩
                  · exact ih v y hy
        exact this t (a :: t) x h

/-! C3: strategy.check_risk input validation and position-size formula. -/

/-- C3: check_risk returns the distinct error state `("Invalid Input", None)`
exactly when balance or price is non-positive, and otherwise the position
size `(balance * risk_pct / 100) / price`; in particular
`check_risk 10000 100 2` yields 2 and the two degenerate calls fail. -/
theorem C3_check_risk (balance price risk_pct : ℚ) :
    (Strategy.check_risk balance price risk_pct = ("Invalid Input", none) ↔
      balance ≤ 0 ∨ price ≤ 0) ∧
    (¬(balance ≤ 0 ∨ price ≤ 0) →
      Strategy.check_risk balance price risk_pct =
        ("Position Size", some (balance * risk_pct / 100 / price))) ∧
    Strategy.check_risk 10000 100 2 = ("Position Size", some 2) ∧
    Strategy.check_risk 0 100 2 = ("Invalid Input", none) ∧
    Strategy.check_risk 100 0 2 = ("Invalid Input", none) := by
  refine ⟨?_, ?_, by norm_num [Strategy.check_risk], by norm_num [Strategy.check_risk],
    by norm_num [Strategy.check_risk]⟩
  · unfold Strategy.check_risk
    split
    · next h => simp [h]
    · next h => simp [h, Prod.ext_iff]
  · intro h
    unfold Strategy.check_risk
    rw [if_neg h]

/-- C3 witness: the theorem applied at a strictly valid input. -/
theorem C3_check_risk_witness :
    Strategy.check_risk 200 4 2 = ("Position Size", some (200 * 2 / 100 / 4)) :=
  (C3_check_risk 200 4 2).2.1 (by norm_num)

/-! C9: the streaming analyzer's risk ceiling holds by construction. -/

/-- C9: with exact arithmetic the position size computed by
calculate_position_size satisfies `size * price = balance * risk_pct / 100`,
so the `check_risk` gate of the streaming analyzer always passes. -/
theorem C9_risk_ceiling (balance risk_pct price : ℚ)
    (_hb : 0 < balance) (_hr : 0 < risk_pct) (hp : 0 < price) :
    WS.calculate_position_size balance risk_pct price * price =
      balance * risk_pct / 100 ∧
    WS.calculate_position_size balance risk_pct price * price ≤
      balance * risk_pct / 100 ∧
    WS.check_risk balance risk_pct price = true := by
  have key : WS.calculate_position_size balance risk_pct price * price =
      balance * risk_pct / 100 := by
    unfold WS.calculate_position_size
    field_simp
    ring
  refine ⟨key, le_of_eq key, ?_⟩
  simp [WS.check_risk, key]

/-- C9 witness: the gate passes at a concrete balance, risk and price. -/
theorem C9_risk_ceiling_witness :
    WS.calculate_position_size 10000 2 100 * 100 = 10000 * 2 / 100 ∧
    WS.calculate_position_size 10000 2 100 * 100 ≤ 10000 * 2 / 100 ∧
    WS.check_risk 10000 2 100 = true :=
  C9_risk_ceiling 10000 2 100 (by norm_num) (by norm_num) (by norm_num)

/-! C1: consensus vote thresholds. -/

/-- C1: characterization of the consensus vote at both call sites
(websocket thresholds 5/4, agent thresholds 3/3): BUY exactly when the BUY
count reaches the buy threshold, SELL exactly when the SELL count reaches
the sell threshold and the buy condition fails, else the hold state; with
the exact-boundary facts (a count equal to the threshold triggers, the
threshold minus one never does). -/
theorem C1_consensus_vote (results : List StratResult)
    (agent_results : List (String × Option PVal)) :
    (WS.calculate_signal results = "BUY" ↔ 5 ≤ results.countP strEqBuy) ∧
    (WS.calculate_signal results = "SELL" ↔
      4 ≤ results.countP strEqSell ∧ results.countP strEqBuy < 5) ∧
    (WS.calculate_signal results = "NEUTRAL" ↔
      results.countP strEqBuy < 5 ∧ results.countP strEqSell < 4) ∧
    (results.countP strEqBuy = 5 → WS.calculate_signal results = "BUY") ∧
    (results.countP strEqBuy = 4 → WS.calculate_signal results ≠ "BUY") ∧
    (results.countP strEqSell = 4 → results.countP strEqBuy < 5 →
      WS.calculate_signal results = "SELL") ∧
    (results.countP strEqSell = 3 → WS.calculate_signal results ≠ "SELL") ∧
    (Agent.analyzer_signal agent_results = "BUY" ↔
      3 ≤ agent_results.countP (fun kv => kv.1 == "BUY")) ∧
    (Agent.analyzer_signal agent_results = "SELL" ↔
      3 ≤ agent_results.countP (fun kv => kv.1 == "SELL") ∧
      agent_results.countP (fun kv => kv.1 == "BUY") < 3) ∧
    (Agent.analyzer_signal agent_results = "HOLD" ↔
      agent_results.countP (fun kv => kv.1 == "BUY") < 3 ∧
      agent_results.countP (fun kv => kv.1 == "SELL") < 3) := by
  by_cases h1 : 5 ≤ results.countP strEqBuy <;>
  by_cases h2 : 4 ≤ results.countP strEqSell <;>
  by_cases h3 : 3 ≤ agent_results.countP (fun kv => kv.1 == "BUY") <;>
  by_cases h4 : 3 ≤ agent_results.countP (fun kv => kv.1 == "SELL") <;>
    simp [WS.calculate_signal, Agent.analyzer_signal, h1, h2, h3, h4] <;>
    omega

/-- C1 witness: the exact thresholds at concrete vote lists. -/
theorem C1_consensus_vote_witness :
    WS.calculate_signal (List.replicate 5 (StratResult.strSig "BUY")) = "BUY" ∧
    Agent.analyzer_signal (List.replicate 3 ("SELL", (none : Option PVal))) = "SELL" := by
  constructor
  · exact (C1_consensus_vote (List.replicate 5 (StratResult.strSig "BUY")) []).1.mpr
      (by decide)
  · exact (C1_consensus_vote [] (List.replicate 3 ("SELL", (none : Option PVal)))).2.2.2.2.2.2.2.2.1.mpr
      (by decide)

/-! C2: short windows abstain.  The strategy-module indicators do return
the insufficient-data state, but the streaming analyzer's ADX strategy
votes SELL on a short window, refuting the claim as stated. -/

/-- C2 counterexample: a one-row window (shorter than the 14 period) makes
the streaming analyzer's ADX return the bare signal SELL — a SELL vote
counted by calculate_signal, with no None value. -/
theorem C2_cex_ws_adx_short_window_sells :
    WS.calculate_adx [10] [11] [9] 14 = Except.ok "SELL" ∧
    ([StratResult.strSig "SELL"].countP strEqSell = 1) ∧
    (1 : ℕ) < 14 := by
  refine ⟨rfl, by decide, by norm_num⟩

/-- C2 amended: every indicator of the strategy module returns
`value = None` with the abstaining NEUTRAL signal on a window shorter than
its period (NEUTRAL adds nothing to either vote count of the agent); the
streaming analyzer's indicators lack this guard. -/
theorem C2_strategy_short_window_abstains (close high low : List ℚ)
    (period long_period sp sgp smk smd : ℕ) (nstd : ℚ) (logF sqrtF : ℚ → ℚ)
    (rest : List (String × Option PVal)) :
    (close.length < period →
      Strategy.calculate_rsi close period = Except.ok ("NEUTRAL", none)) ∧
    (close.length < long_period →
      Strategy.calculate_macd close sp long_period sgp = Except.ok ("NEUTRAL", none)) ∧
    (close.length < period →
      Strategy.calculate_sma close period = Except.ok ("NEUTRAL", none)) ∧
    (close.length < period →
      Strategy.calculate_bollinger_bands close period nstd sqrtF =
        Except.ok ("NEUTRAL", (none, none))) ∧
    (close.length < 52 →
      Strategy.calculate_adx close high low period = Except.ok ("NEUTRAL", none)) ∧
    (close.length < period →
      Strategy.calculate_vtr close period logF sqrtF = Except.ok ("NEUTRAL", none)) ∧
    (close.length < period →
      Strategy.calculate_stochastic close high low period smk smd =
        Except.ok ("NEUTRAL", (none, none))) ∧
    ((("NEUTRAL", (none : Option PVal)) :: rest).countP (fun kv => kv.1 == "BUY") =
      rest.countP (fun kv => kv.1 == "BUY")) ∧
    ((("NEUTRAL", (none : Option PVal)) :: rest).countP (fun kv => kv.1 == "SELL") =
      rest.countP (fun kv => kv.1 == "SELL")) := by
  refine ⟨?_, ?_, ?_, ?_, ?_, ?_, ?_, ?_, ?_⟩
  · intro h; unfold Strategy.calculate_rsi; rw [if_pos h]
  · intro h; unfold Strategy.calculate_macd; rw [if_pos h]
  · intro h; unfold Strategy.calculate_sma; rw [if_pos h]
  · intro h; unfold Strategy.calculate_bollinger_bands; rw [if_pos h]
  · intro h; unfold Strategy.calculate_adx; rw [if_pos h]
  · intro h; unfold Strategy.calculate_vtr; rw [if_pos h]
  · intro h; unfold Strategy.calculate_stochastic; rw [if_pos h]
  · simp [List.countP_cons]
  · simp [List.countP_cons]

/-- C2 witness: the amended theorem at a one-row window with period 14. -/
theorem C2_strategy_short_window_abstains_witness :
    Strategy.calculate_rsi [1] 14 = Except.ok ("NEUTRAL", none) ∧
    Strategy.calculate_macd [1] 12 26 9 = Except.ok ("NEUTRAL", none) ∧
    Strategy.calculate_sma [1] 14 = Except.ok ("NEUTRAL", none) ∧
    Strategy.calculate_bollinger_bands [1] 14 2 (fun x => x) =
      Except.ok ("NEUTRAL", (none, none)) ∧
    Strategy.calculate_adx [1] [2] [0] 14 = Except.ok ("NEUTRAL", none) ∧
    Strategy.calculate_vtr [1] 14 (fun x => x) (fun x => x) =
      Except.ok ("NEUTRAL", none) ∧
    Strategy.calculate_stochastic [1] [2] [0] 14 3 3 =
      Except.ok ("NEUTRAL", (none, none)) := by
  have h := C2_strategy_short_window_abstains [1] [2] [0] 14 26 12 9 3 3 2
    (fun x => x) (fun x => x) []
  exact ⟨h.1 (by norm_num), h.2.1 (by norm_num), h.2.2.1 (by norm_num),
    h.2.2.2.1 (by norm_num), h.2.2.2.2.1 (by norm_num),
    h.2.2.2.2.2.1 (by norm_num), h.2.2.2.2.2.2.1 (by norm_num)⟩

/-! C10: MarketAnalyzer.analyze can never return. -/

lemma evaluate_signals_ok_length (price : ℚ)
    (rsi macd signal_line sma upper lower adx vtr stx : Series)
    (l : List String)
    (h : MK.evaluate_signals price rsi macd signal_line sma upper lower adx vtr stx =
      Except.ok l) : l.length = 6 := by
  unfold MK.evaluate_signals at h
  dsimp only at h
  split at h
  · exact absurd h (by simp)
  · simp only [Except.ok.injEq] at h
    subst h
    rfl

lemma unpack7_of_length_ne (xs : List String) (h : xs.length ≠ 7) :
    MK.unpack7 xs = Except.error ("ValueError: not enough values to unpack") := by
  unfold MK.unpack7
  split
  · simp at h
  · rfl

/-- C10: MarketAnalyzer.analyze never completes: evaluate_signals either
raises on the unguarded stochastic indexing or returns six signals, which
the seven-name unpacking in analyze then rejects. -/
theorem C10_market_analyze_never_returns (close high low : List ℚ)
    (price portfolio_value risk_percentage loss_percentage : ℚ)
    (period : ℕ) (sqrtF : ℚ → ℚ) :
    (MK.analyze close high low price portfolio_value risk_percentage
      loss_percentage period sqrtF).isOk = false := by
  unfold MK.analyze
  cases hev : MK.evaluate_signals price (MK.calculate_rsi close period)
      (MK.calculate_macd close 12 26 9).1 (MK.calculate_macd close 12 26 9).2
      (MK.calculate_sma close period)
      (MK.calculate_bollinger_bands close period 2 sqrtF).1
      (MK.calculate_bollinger_bands close period 2 sqrtF).2
      (MK.calculate_adx close high low period).1
      (MK.calculate_vtr close period sqrtF)
      (MK.calculate_stochastic_oscillator close high low period) with
  | error e => simp [hev, Bind.bind, Except.bind, Except.isOk, Except.toBool]
  | ok sigs =>
      have hlen : sigs.length = 6 :=
        evaluate_signals_ok_length _ _ _ _ _ _ _ _ _ _ _ hev
      have hup : MK.unpack7 sigs =
          Except.error ("ValueError: not enough values to unpack") :=
        unpack7_of_length_ne sigs (by omega)
      simp [hev, hup, Bind.bind, Except.bind, Except.isOk, Except.toBool]

/-! C4: the streaming analyzer can never output BUY. -/

lemma run_strategies_shape (close high low : List ℚ) (period : ℕ)
    (sqrtF : ℚ → ℚ) (rs : List StratResult)
    (h : WS.run_strategies close high low period sqrtF = Except.ok rs) :
    ∃ s1 s2 pr s3 s4 l1 l2,
      rs = [StratResult.strSig s1, StratResult.strSig s2,
        StratResult.pairSig (Prod.fst pr) (Prod.snd pr), StratResult.strSig s3,
        StratResult.strSig s4, StratResult.seriesSig l1, StratResult.seriesSig l2] := by
  unfold WS.run_strategies at h
  cases h1 : WS.calculate_rsi close period with
  | error e => rw [h1] at h; simp [Bind.bind, Except.bind] at h
  | ok r1 =>
  rw [h1] at h
  cases h2 : WS.calculate_macd close 12 26 9 with
  | error e => rw [h2] at h; simp [Bind.bind, Except.bind] at h
  | ok r2 =>
  rw [h2] at h
  cases h3 : WS.calculate_sma close period with
  | error e => rw [h3] at h; simp [Bind.bind, Except.bind] at h
  | ok r3 =>
  rw [h3] at h
  cases h4 : WS.calculate_bollinger_bands close period 2 sqrtF with
  | error e => rw [h4] at h; simp [Bind.bind, Except.bind] at h
  | ok r4 =>
  rw [h4] at h
  cases h5 : WS.calculate_adx close high low period with
  | error e => rw [h5] at h; simp [Bind.bind, Except.bind] at h
  | ok r5 =>
  rw [h5] at h
  simp only [Bind.bind, Except.bind, pure, Except.pure, Except.ok.injEq] at h
  exact ⟨r1, r2, r3, r4, r5, _, _, h.symm⟩

lemma shape_countP_buy_le (s1 s2 s3 s4 : String) (pr : String × Option PVal)
    (l1 l2 : Series) :
    ([StratResult.strSig s1, StratResult.strSig s2,
      StratResult.pairSig (Prod.fst pr) (Prod.snd pr), StratResult.strSig s3,
      StratResult.strSig s4, StratResult.seriesSig l1,
      StratResult.seriesSig l2].countP strEqBuy) ≤ 4 := by
  simp only [List.countP_cons, List.countP_nil, strEqBuy]
  split_ifs <;> simp_all

/-- C4: WebSocketAnalyzer.analyze never returns BUY: the SMA result is a
tuple and the VTR and stochastic results are series, so at most four of the
seven strategy results can equal the string BUY — strictly below the buy
threshold of five. -/
theorem C4_ws_analyze_never_buy (close high low : List ℚ) (period : ℕ)
    (sqrtF : ℚ → ℚ) (balance risk_threshold price : ℚ) :
    WS.analyze close high low period sqrtF balance risk_threshold price ≠
      Except.ok "BUY" ∧
    (∀ rs, WS.run_strategies close high low period sqrtF = Except.ok rs →
      rs.countP strEqBuy ≤ 4) := by
  constructor
  · intro h
    unfold WS.analyze at h
    cases hrun : WS.run_strategies close high low period sqrtF with
    | error e => rw [hrun] at h; simp [Bind.bind, Except.bind] at h
    | ok rs =>
        rw [hrun] at h
        obtain ⟨s1, s2, pr, s3, s4, l1, l2, rfl⟩ :=
          run_strategies_shape close high low period sqrtF _ hrun
        have hb := shape_countP_buy_le s1 s2 s3 s4 pr l1 l2
        simp only [Bind.bind, Except.bind] at h
        unfold WS.calculate_signal at h
        dsimp only at h
        split_ifs at h with hcr hc1 hc2 <;>
          simp only [pure, Except.pure, Except.ok.injEq] at h <;>
          simp_all <;> omega
  · intro rs hrun
    obtain ⟨s1, s2, pr, s3, s4, l1, l2, rfl⟩ :=
      run_strategies_shape close high low period sqrtF _ hrun
    exact shape_countP_buy_le s1 s2 s3 s4 pr l1 l2

/-- C4 witness: the bound at a concrete one-row stream. -/
theorem C4_ws_analyze_never_buy_witness :
    WS.analyze [1] [1] [1] 2 (fun x => x) 1 1 1 ≠ Except.ok "BUY" ∧
    [StratResult.strSig "NEUTRAL", StratResult.strSig "NEUTRAL",
      StratResult.pairSig "NEUTRAL" none, StratResult.strSig "Error",
      StratResult.strSig "SELL", StratResult.seriesSig [PVal.nan],
      StratResult.seriesSig [PVal.nan]].countP strEqBuy ≤ 4 := by
  constructor
  · exact (C4_ws_analyze_never_buy [1] [1] [1] 2 (fun x => x) 1 1 1).1
  · exact (C4_ws_analyze_never_buy [1] [1] [1] 2 (fun x => x) 1 1 1).2 _
      (by with_unfolding_all decide)

/-! C5: the ADX pipeline against the specified algorithm. -/

lemma mem_zipWith_fin (u v : List ℚ) (y : PVal)
    (hy : y ∈ List.zipWith (fun b a => PVal.fin (b - a)) u v) :
    ∃ q, y = PVal.fin q := by
  induction u generalizing v with
  | nil => simp at hy
  | cons b u ih =>
      cases v with
      | nil => simp at hy
      | cons c v =>
          simp only [List.zipWith, List.mem_cons] at hy
          rcases hy with hy | hy
          · exact ⟨b - c, hy⟩
          · exact ih v hy

lemma diffQ_zip_nan (high low : List ℚ) :
    ∀ pr ∈ List.zip (diffQ high) (diffQ low), pr.1 = PVal.nan → pr.2 = PVal.nan := by
  cases high with
  | nil => simp [diffQ]
  | cons a t =>
      cases low with
      | nil => simp [diffQ]
      | cons b s =>
          rintro ⟨x, y⟩ hpr h1
          simp only at h1
          simp only [diffQ, List.zip_cons_cons, List.mem_cons, Prod.mk.injEq] at hpr
          rcases hpr with ⟨hx, hy⟩ | h
          · simpa using hy
          · obtain ⟨q, hq⟩ := mem_zipWith_fin t (a :: t) x (List.of_mem_zip h).1
            rw [hq] at h1
            cases h1

lemma dm_minus_pointwise (p m : PVal) (hp : p = PVal.nan → m = PVal.nan) :
    (if PVal.gt m (if PVal.gt p m && PVal.gt p (PVal.fin 0) then p else PVal.fin 0) &&
        PVal.gt m (PVal.fin 0) then m else PVal.fin 0) =
    (if p = m ∧ PVal.gt m (PVal.fin 0) = true then m else SpecModel.minus_dm_rule p m) := by
  cases p with
  | nan =>
      have hm := hp rfl
      subst hm
      simp [SpecModel.minus_dm_rule, PVal.gt, PVal.lt]
  | pinf =>
      cases m <;> simp [SpecModel.minus_dm_rule, PVal.gt, PVal.lt]
  | ninf =>
      cases m <;> simp [SpecModel.minus_dm_rule, PVal.gt, PVal.lt]
  | fin a =>
      cases m with
      | nan => simp [SpecModel.minus_dm_rule, PVal.gt, PVal.lt]
      | pinf => simp [SpecModel.minus_dm_rule, PVal.gt, PVal.lt]
      | ninf => simp [SpecModel.minus_dm_rule, PVal.gt, PVal.lt]
      | fin b =>
          simp only [SpecModel.minus_dm_rule, PVal.gt, PVal.lt]
          by_cases h1 : b < a <;> by_cases h2 : a < b <;>
            by_cases h3 : (0:ℚ) < a <;> by_cases h4 : (0:ℚ) < b <;>
            by_cases h5 : a = b <;>
            simp [h1, h2, h3, h4, h5] <;>
            first
              | rfl
              | (exfalso; first | linarith | (apply h5; linarith))

lemma minus_dm_zip_char (ps : List PVal) : ∀ (ms : List PVal),
    (∀ pr ∈ List.zip ps ms, pr.1 = PVal.nan → pr.2 = PVal.nan) →
    List.zipWith (fun m p =>
        if PVal.gt m p && PVal.gt m (PVal.fin 0) then m else PVal.fin 0)
      ms (List.zipWith (fun p m =>
        if PVal.gt p m && PVal.gt p (PVal.fin 0) then p else PVal.fin 0) ps ms) =
    List.zipWith (fun p m =>
        if p = m ∧ PVal.gt m (PVal.fin 0) = true then m else SpecModel.minus_dm_rule p m)
      ps ms := by
  induction ps with
  | nil => intro ms h; simp
  | cons p pt ih =>
      intro ms h
      cases ms with
      | nil => simp
      | cons m mt =>
          simp only [List.zipWith]
          congr 1
          · exact dm_minus_pointwise p m
              (fun hp => h (p, m) (by simp [List.zip_cons_cons]) hp)
          · exact ih mt (fun pr hpr => h pr (by simp [List.zip_cons_cons, hpr]))

/-- C5 counterexample: with period 2 on the four-bar window
close = [7,9,10,12], high = [10,12,14,17], low = [5,6,8,9] (whose third bar
raises high and low by the same amount), the market analyzer's last ADX
value is 10 while the algorithm as specified yields 100. -/
theorem C5_cex_adx_deviates_from_spec :
    (MK.calculate_adx [7, 9, 10, 12] [10, 12, 14, 17] [5, 6, 8, 9] 2).1.getLast? =
      some (PVal.fin 10) ∧
    (SpecModel.adx [7, 9, 10, 12] [10, 12, 14, 17] [5, 6, 8, 9] 2).getLast? =
      some (PVal.fin 100) ∧
    PVal.fin (10 : ℚ) ≠ PVal.fin (100 : ℚ) := by
  refine ⟨by with_unfolding_all decide, by with_unfolding_all decide,
    by with_unfolding_all decide⟩

/-- C5 amended: the market analyzer's +DM stage follows the specified rule,
but its -DM stage compares the raw low difference against the ALREADY
FILTERED +DM, so it equals the specified rule except when the high and low
differences are equal and positive, where the code keeps the low difference
(and the spec rule zeroes both); downstream DI/DX/ADX then consume these DM
series through the min_periods=1/backfill pipeline. -/
theorem C5_adx_dm_stage (high low : List ℚ) :
    MK.adx_plus_dm high low =
      List.zipWith SpecModel.plus_dm_rule (diffQ high) (diffQ low) ∧
    MK.adx_minus_dm high low =
      List.zipWith (fun p m =>
        if p = m ∧ PVal.gt m (PVal.fin 0) = true then m
        else SpecModel.minus_dm_rule p m) (diffQ high) (diffQ low) := by
  constructor
  · rfl
  · unfold MK.adx_minus_dm MK.adx_plus_dm
    exact minus_dm_zip_char (diffQ high) (diffQ low) (diffQ_zip_nan high low)

/-! Rolling-mean evaluation lemmas for the last window. -/

lemma psum_map_fin (qs : List ℚ) : psum (qs.map PVal.fin) = PVal.fin qs.sum := by
  induction qs with
  | nil => rfl
  | cons q t ih =>
      simp only [List.map_cons, psum, List.foldr_cons, List.sum_cons]
      simp only [psum] at ih
      rw [ih]
      simp [PVal.add]

lemma exists_map_fin (l : Series) (h : ∀ x ∈ l, ∃ q, x = PVal.fin q) :
    ∃ qs : List ℚ, l = qs.map PVal.fin := by
  induction l with
  | nil => exact ⟨[], rfl⟩
  | cons a t ih =>
      obtain ⟨qs, hqs⟩ := ih (fun x hx => h x (List.mem_cons_of_mem a hx))
      obtain ⟨q, hq⟩ := h a (List.mem_cons_self a t)
      exact ⟨q :: qs, by rw [hq, hqs]; rfl⟩

lemma zipWith_getElem?_some {α β γ : Type} (f : α → β → γ) (l1 : List α)
    (l2 : List β) (i : ℕ) (a : α) (b : β)
    (h1 : l1[i]? = some a) (h2 : l2[i]? = some b) :
    (List.zipWith f l1 l2)[i]? = some (f a b) := by
  rw [List.getElem?_zipWith', h1, h2]
  rfl

lemma rollingMean_last (p : ℕ) (xs : Series) (qs : List ℚ)
    (hp : 1 ≤ p) (hlen : p ≤ xs.length)
    (hw : rwindow p xs (xs.length - 1) = qs.map PVal.fin) :
    (rollingMean p xs)[xs.length - 1]? = some (PVal.fin (qs.sum / (p : ℚ))) := by
  have hin : xs.length - 1 < xs.length := by omega
  have hpi : p ≤ (xs.length - 1) + 1 := by omega
  have hwl : (rwindow p xs (xs.length - 1)).length = p := rwindow_length _ _ _ hpi hin
  have hql : qs.length = p := by rw [hw] at hwl; simpa using hwl
  have hnonan : ∀ x ∈ rwindow p xs (xs.length - 1), ¬ x.isNan = true := by
    rw [hw]
    intro x hx
    obtain ⟨q, _, rfl⟩ := List.mem_map.mp hx
    simp [PVal.isNan]
  have hp0 : ((p : ℚ)) ≠ 0 := by
    simpa using (by omega : ¬ (p = 0))
  rw [rollingMean, rollingMeanMP_getElem p p xs _ hin,
    rvalid_eq_rwindow _ _ _ hnonan, hw, psum_map_fin]
  simp only [List.length_map, hql]
  rw [if_pos ⟨le_refl p, hp⟩]
  simp [PVal.div, hp0]

lemma rwindow_last (p : ℕ) (xs : Series) (hne : 1 ≤ xs.length) :
    rwindow p xs (xs.length - 1) = xs.drop (xs.length - p) := by
  unfold rwindow
  have h1 : xs.length - 1 + 1 = xs.length := by omega
  rw [h1, List.take_length]

/-! C6: RSI boundedness and the all-gains guard. -/

lemma list_sum_nonpos (l : List ℚ) (h : ∀ q ∈ l, q ≤ 0) : l.sum ≤ 0 := by
  induction l with
  | nil => simp
  | cons a t ih =>
      simp only [List.sum_cons]
      have h1 := h a (List.mem_cons_self a t)
      have h2 := ih (fun q hq => h q (List.mem_cons_of_mem a hq))
      linarith

lemma rsi_last_characterization (close : List ℚ) (period : ℕ)
    (h1 : 1 ≤ period) (h2 : period ≤ close.length) :
    ∃ g l : ℚ, 0 ≤ g ∧ 0 ≤ l ∧
      Strategy.calculate_rsi close period = Except.ok
        ((if PVal.gt (PVal.sub (PVal.fin 100) (PVal.div (PVal.fin 100)
              (PVal.add (PVal.fin 1) (PVal.div (PVal.fin g) (PVal.fin l)))))
              (PVal.fin 70) then "SELL"
          else if PVal.lt (PVal.sub (PVal.fin 100) (PVal.div (PVal.fin 100)
              (PVal.add (PVal.fin 1) (PVal.div (PVal.fin g) (PVal.fin l)))))
              (PVal.fin 30) then "BUY"
          else "NEUTRAL"),
         some (PVal.sub (PVal.fin 100) (PVal.div (PVal.fin 100)
            (PVal.add (PVal.fin 1) (PVal.div (PVal.fin g) (PVal.fin l)))))) ∧
      ((∀ d ∈ rwindow period (diffQ close) (close.length - 1),
          ∃ q, d = PVal.fin q ∧ 0 < q) → 0 < g ∧ l = 0) := by
  have hn1 : 1 ≤ close.length := le_trans h1 h2
  have hDlen : (diffQ close).length = close.length := diffQ_length close
  -- the last window over the raw differences
  have hWmem : ∀ x ∈ rwindow period (diffQ close) (close.length - 1),
      x = PVal.nan ∨ ∃ q, x = PVal.fin q := by
    intro x hx
    exact mem_diffQ close x (rwindow_subset _ _ _ _ hx)
  have hWlen : (rwindow period (diffQ close) (close.length - 1)).length = period := by
    apply rwindow_length
    · omega
    · omega
  -- gain window: an all-finite non-negative list
  have hGwin : rwindow period (whereKeep (fun d => PVal.gt d (PVal.fin 0)) (diffQ close))
      (close.length - 1) =
      (rwindow period (diffQ close) (close.length - 1)).map
        (fun x => if PVal.gt x (PVal.fin 0) then x else PVal.fin 0) := by
    unfold whereKeep
    exact rwindow_map _ _ _ _
  have hGfin : ∀ y ∈ rwindow period
      (whereKeep (fun d => PVal.gt d (PVal.fin 0)) (diffQ close)) (close.length - 1),
      ∃ q, y = PVal.fin q ∧ 0 ≤ q := by
    rw [hGwin]
    intro y hy
    obtain ⟨x, hx, rfl⟩ := List.mem_map.mp hy
    rcases hWmem x hx with rfl | ⟨q, rfl⟩
    · exact ⟨0, by simp [PVal.gt, PVal.lt], le_refl 0⟩
    · by_cases hq : (0:ℚ) < q
      · exact ⟨q, by simp [PVal.gt, PVal.lt, hq], le_of_lt hq⟩
      · exact ⟨0, by simp [PVal.gt, PVal.lt, hq], le_refl 0⟩
  obtain ⟨qsg, hqsg⟩ := exists_map_fin _ (fun y hy => ⟨(hGfin y hy).choose, (hGfin y hy).choose_spec.1⟩)
  have hqsg_nonneg : ∀ q ∈ qsg, 0 ≤ q := by
    intro q hq
    have hmem : PVal.fin q ∈ rwindow period
        (whereKeep (fun d => PVal.gt d (PVal.fin 0)) (diffQ close)) (close.length - 1) := by
      rw [hqsg]
      exact List.mem_map_of_mem PVal.fin hq
    obtain ⟨q', hq', hq'n⟩ := hGfin _ hmem
    cases hq'
    exact hq'n
  -- loss window: an all-finite non-positive list
  have hLwin : rwindow period (whereKeep (fun d => PVal.lt d (PVal.fin 0)) (diffQ close))
      (close.length - 1) =
      (rwindow period (diffQ close) (close.length - 1)).map
        (fun x => if PVal.lt x (PVal.fin 0) then x else PVal.fin 0) := by
    unfold whereKeep
    exact rwindow_map _ _ _ _
  have hLfin : ∀ y ∈ rwindow period
      (whereKeep (fun d => PVal.lt d (PVal.fin 0)) (diffQ close)) (close.length - 1),
      ∃ q, y = PVal.fin q ∧ q ≤ 0 := by
    rw [hLwin]
    intro y hy
    obtain ⟨x, hx, rfl⟩ := List.mem_map.mp hy
    rcases hWmem x hx with rfl | ⟨q, rfl⟩
    · exact ⟨0, by simp [PVal.lt], le_refl 0⟩
    · by_cases hq : q < 0
      · exact ⟨q, by simp [PVal.lt, hq], le_of_lt hq⟩
      · exact ⟨0, by simp [PVal.lt, hq], le_refl 0⟩
  obtain ⟨qsl, hqsl⟩ := exists_map_fin _ (fun y hy => ⟨(hLfin y hy).choose, (hLfin y hy).choose_spec.1⟩)
  have hqsl_nonpos : ∀ q ∈ qsl, q ≤ 0 := by
    intro q hq
    have hmem : PVal.fin q ∈ rwindow period
        (whereKeep (fun d => PVal.lt d (PVal.fin 0)) (diffQ close)) (close.length - 1) := by
      rw [hqsl]
      exact List.mem_map_of_mem PVal.fin hq
    obtain ⟨q', hq', hq'n⟩ := hLfin _ hmem
    cases hq'
    exact hq'n
  -- lengths of the finite windows
  have hqsg_len : qsg.length = period := by
    have := hWlen
    have hGl : (rwindow period
        (whereKeep (fun d => PVal.gt d (PVal.fin 0)) (diffQ close))
        (close.length - 1)).length = period := by
      apply rwindow_length
      · omega
      · rw [whereKeep_length, hDlen]; omega
    rw [hqsg] at hGl
    simpa using hGl
  have hqsl_len : qsl.length = period := by
    have hLl : (rwindow period
        (whereKeep (fun d => PVal.lt d (PVal.fin 0)) (diffQ close))
        (close.length - 1)).length = period := by
      apply rwindow_length
      · omega
      · rw [whereKeep_length, hDlen]; omega
    rw [hqsl] at hLl
    simpa using hLl
  -- last values of the rolling means
  have hGserieslen : (whereKeep (fun d => PVal.gt d (PVal.fin 0)) (diffQ close)).length =
      close.length := by rw [whereKeep_length, hDlen]
  have hLserieslen : (whereKeep (fun d => PVal.lt d (PVal.fin 0)) (diffQ close)).length =
      close.length := by rw [whereKeep_length, hDlen]
  have hgain : (rollingMean period
      (whereKeep (fun d => PVal.gt d (PVal.fin 0)) (diffQ close)))[close.length - 1]? =
      some (PVal.fin (qsg.sum / (period : ℚ))) := by
    have := rollingMean_last period
      (whereKeep (fun d => PVal.gt d (PVal.fin 0)) (diffQ close)) qsg h1
      (by rw [hGserieslen]; exact h2)
      (by rw [hGserieslen]; exact hqsg)
    rwa [hGserieslen] at this
  have hloss0 : (rollingMean period
      (whereKeep (fun d => PVal.lt d (PVal.fin 0)) (diffQ close)))[close.length - 1]? =
      some (PVal.fin (qsl.sum / (period : ℚ))) := by
    have := rollingMean_last period
      (whereKeep (fun d => PVal.lt d (PVal.fin 0)) (diffQ close)) qsl h1
      (by rw [hLserieslen]; exact h2)
      (by rw [hLserieslen]; exact hqsl)
    rwa [hLserieslen] at this
  have hloss : ((rollingMean period
      (whereKeep (fun d => PVal.lt d (PVal.fin 0)) (diffQ close))).map
        PVal.neg)[close.length - 1]? =
      some (PVal.fin (-(qsl.sum / (period : ℚ)))) := by
    rw [List.getElem?_map, hloss0]
    simp [PVal.neg]
  refine ⟨qsg.sum / (period : ℚ), -(qsl.sum / (period : ℚ)), ?_, ?_, ?_, ?_⟩
  · apply div_nonneg (List.sum_nonneg hqsg_nonneg) (by positivity)
  · have hs : qsl.sum ≤ 0 := list_sum_nonpos qsl hqsl_nonpos
    have : qsl.sum / (period : ℚ) ≤ 0 :=
      div_nonpos_iff.mpr (Or.inr ⟨hs, by positivity⟩)
    linarith
  · -- evaluate calculate_rsi
    unfold Strategy.calculate_rsi
    rw [if_neg (by omega : ¬ close.length < period)]
    have hrs : (List.zipWith PVal.div
        (rollingMean period (whereKeep (fun d => PVal.gt d (PVal.fin 0)) (diffQ close)))
        ((rollingMean period (whereKeep (fun d => PVal.lt d (PVal.fin 0)) (diffQ close))).map
          PVal.neg))[close.length - 1]? =
        some (PVal.div (PVal.fin (qsg.sum / (period : ℚ)))
          (PVal.fin (-(qsl.sum / (period : ℚ))))) :=
      zipWith_getElem?_some _ _ _ _ _ _ hgain hloss
    have hrsi : ((List.zipWith PVal.div
        (rollingMean period (whereKeep (fun d => PVal.gt d (PVal.fin 0)) (diffQ close)))
        ((rollingMean period (whereKeep (fun d => PVal.lt d (PVal.fin 0)) (diffQ close))).map
          PVal.neg)).map (fun r =>
            PVal.sub (PVal.fin 100) (PVal.div (PVal.fin 100)
              (PVal.add (PVal.fin 1) r))))[close.length - 1]? =
        some (PVal.sub (PVal.fin 100) (PVal.div (PVal.fin 100)
          (PVal.add (PVal.fin 1) (PVal.div (PVal.fin (qsg.sum / (period : ℚ)))
            (PVal.fin (-(qsl.sum / (period : ℚ)))))))) := by
      rw [List.getElem?_map, hrs]
      rfl
    have hlast : ((List.zipWith PVal.div
        (rollingMean period (whereKeep (fun d => PVal.gt d (PVal.fin 0)) (diffQ close)))
        ((rollingMean period (whereKeep (fun d => PVal.lt d (PVal.fin 0)) (diffQ close))).map
          PVal.neg)).map (fun r =>
            PVal.sub (PVal.fin 100) (PVal.div (PVal.fin 100)
              (PVal.add (PVal.fin 1) r)))).getLast? =
        some (PVal.sub (PVal.fin 100) (PVal.div (PVal.fin 100)
          (PVal.add (PVal.fin 1) (PVal.div (PVal.fin (qsg.sum / (period : ℚ)))
            (PVal.fin (-(qsl.sum / (period : ℚ)))))))) := by
      rw [List.getLast?_eq_getElem?]
      have hlenrsi : ((List.zipWith PVal.div
          (rollingMean period (whereKeep (fun d => PVal.gt d (PVal.fin 0)) (diffQ close)))
          ((rollingMean period (whereKeep (fun d => PVal.lt d (PVal.fin 0)) (diffQ close))).map
            PVal.neg)).map (fun r =>
              PVal.sub (PVal.fin 100) (PVal.div (PVal.fin 100)
                (PVal.add (PVal.fin 1) r)))).length = close.length := by
        simp [rollingMean, rollingMeanMP_length, whereKeep_length, hDlen]
      rw [hlenrsi]
      exact hrsi
    show (ilocLast _ >>= fun last => pure (_, some last)) = _
    rw [show ilocLast ((List.zipWith PVal.div
        (rollingMean period (whereKeep (fun d => PVal.gt d (PVal.fin 0)) (diffQ close)))
        ((rollingMean period (whereKeep (fun d => PVal.lt d (PVal.fin 0)) (diffQ close))).map
          PVal.neg)).map (fun r =>
            PVal.sub (PVal.fin 100) (PVal.div (PVal.fin 100)
              (PVal.add (PVal.fin 1) r)))) =
        Except.ok (PVal.sub (PVal.fin 100) (PVal.div (PVal.fin 100)
          (PVal.add (PVal.fin 1) (PVal.div (PVal.fin (qsg.sum / (period : ℚ)))
            (PVal.fin (-(qsl.sum / (period : ℚ)))))))) from by
      unfold ilocLast
      rw [hlast]]
    rfl
  · -- the all-gains case
    intro hgains
    constructor
    · have hpos : ∀ q ∈ qsg, 0 < q := by
        intro q hq
        have hmem : PVal.fin q ∈ rwindow period
            (whereKeep (fun d => PVal.gt d (PVal.fin 0)) (diffQ close))
            (close.length - 1) := by
          rw [hqsg]
          exact List.mem_map_of_mem PVal.fin hq
        rw [hGwin] at hmem
        obtain ⟨x, hx, hxe⟩ := List.mem_map.mp hmem
        obtain ⟨qx, rfl, hqx⟩ := hgains x hx
        rw [if_pos (by simp [PVal.gt, PVal.lt, hqx])] at hxe
        cases hxe
        exact hqx
      have hne : qsg ≠ [] := by
        intro hc
        rw [hc] at hqsg_len
        simp at hqsg_len
        omega
      have : 0 < qsg.sum := List.sum_pos qsg hpos hne
      positivity
    · have hzero : ∀ q ∈ qsl, q = 0 := by
        intro q hq
        have hmem : PVal.fin q ∈ rwindow period
            (whereKeep (fun d => PVal.lt d (PVal.fin 0)) (diffQ close))
            (close.length - 1) := by
          rw [hqsl]
          exact List.mem_map_of_mem PVal.fin hq
        rw [hLwin] at hmem
        obtain ⟨x, hx, hxe⟩ := List.mem_map.mp hmem
        obtain ⟨qx, rfl, hqx⟩ := hgains x hx
        rw [if_neg (by simp [PVal.lt]; linarith)] at hxe
        cases hxe
        rfl
      have : qsl.sum = 0 := List.sum_eq_zero hzero
      rw [this]
      simp

/-- C6: on a sufficient window, whenever the strategy RSI carries a finite
value it lies in [0,100]; and when the last `period` price differences are
all positive (so the mean loss is zero) the RSI value is exactly 100 — the
division by a zero mean loss goes through infinity, not NaN — with the
resulting Overbought SELL signal. -/
theorem C6_rsi_bounded_and_allgains_100 (close : List ℚ) (period : ℕ)
    (h1 : 1 ≤ period) (h2 : period ≤ close.length) :
    (∀ sig v x, Strategy.calculate_rsi close period = Except.ok (sig, some v) →
      v = PVal.fin x → 0 ≤ x ∧ x ≤ 100) ∧
    ((∀ d ∈ rwindow period (diffQ close) (close.length - 1),
        ∃ q, d = PVal.fin q ∧ 0 < q) →
      Strategy.calculate_rsi close period =
        Except.ok ("SELL", some (PVal.fin 100))) := by
  obtain ⟨g, l, hg, hl, heq, himpl⟩ := rsi_last_characterization close period h1 h2
  constructor
  · intro sig v x hok hvx
    rw [heq] at hok
    simp only [Except.ok.injEq, Prod.mk.injEq, Option.some.injEq] at hok
    obtain ⟨hsig, hval⟩ := hok
    subst hval
    rcases eq_or_lt_of_le hl with hl0 | hlpos
    · rcases eq_or_lt_of_le hg with hg0 | hgpos
      · exfalso
        rw [← hl0, ← hg0] at hvx
        norm_num [PVal.div, PVal.add, PVal.sub, PVal.neg] at hvx
        exact PVal.noConfusion hvx
      · rw [← hl0] at hvx
        norm_num [PVal.div, PVal.add, PVal.sub, PVal.neg, hgpos] at hvx
        constructor <;> linarith
    · have hlne : l ≠ 0 := ne_of_gt hlpos
      rw [show PVal.div (PVal.fin g) (PVal.fin l) = PVal.fin (g / l) from by
        simp [PVal.div, hlne]] at hvx
      have hrn : 0 ≤ g / l := div_nonneg hg (le_of_lt hlpos)
      have h1r : (0:ℚ) < 1 + g / l := by linarith
      rw [show PVal.add (PVal.fin 1) (PVal.fin (g / l)) = PVal.fin (1 + g / l) from by
        simp [PVal.add]] at hvx
      rw [show PVal.div (PVal.fin 100) (PVal.fin (1 + g / l)) =
          PVal.fin (100 / (1 + g / l)) from by
        simp [PVal.div, ne_of_gt h1r]] at hvx
      rw [show PVal.sub (PVal.fin 100) (PVal.fin (100 / (1 + g / l))) =
          PVal.fin (100 - 100 / (1 + g / l)) from by
        simp [PVal.sub, PVal.add, PVal.neg]
        ring] at hvx
      have hx : x = 100 - 100 / (1 + g / l) := by
        have := hvx
        simp only [PVal.fin.injEq] at this
        linarith [this]
      have hc1 : (0:ℚ) < 100 / (1 + g / l) := by positivity
      have hc2 : 100 / (1 + g / l) ≤ 100 := div_le_self (by norm_num) (by linarith)
      constructor <;> [skip; skip] <;> rw [hx] <;> linarith
  · intro hgains
    obtain ⟨hgpos, hl0⟩ := himpl hgains
    rw [heq]
    rw [hl0]
    norm_num [PVal.div, PVal.add, PVal.sub, PVal.neg, PVal.gt, PVal.lt, hgpos]

/-- C6 witness: strictly increasing closes [1,2,3] with period 2 give RSI
exactly 100 and the Overbought SELL signal. -/
theorem C6_rsi_witness :
    Strategy.calculate_rsi [1, 2, 3] 2 = Except.ok ("SELL", some (PVal.fin 100)) := by
  apply (C6_rsi_bounded_and_allgains_100 [1, 2, 3] 2 (by norm_num) (by norm_num)).2
  intro d hd
  have hwin : rwindow 2 (diffQ [1, 2, 3]) ([(1:ℚ), 2, 3].length - 1) =
      [PVal.fin 1, PVal.fin 1] := by
    with_unfolding_all decide
  rw [hwin] at hd
  simp only [List.mem_cons, List.not_mem_nil, or_false] at hd
  rcases hd with h | h <;> exact ⟨1, by rw [h], by norm_num⟩

/-! C8: Bollinger band ordering. -/

/-- C8: whenever the rolling standard deviation at the last position is a
defined non-negative value `s`, the bands returned by the strategy module
are `SMA ± 2 s`, so `lower ≤ SMA ≤ upper`. -/
theorem C8_bollinger_band_order (close : List ℚ) (period : ℕ) (sqrtF : ℚ → ℚ)
    (s : ℚ) (h1 : 1 ≤ period) (h2 : period ≤ close.length)
    (hs : (rollingStd period sqrtF (close.map PVal.fin)).getLast? = some (PVal.fin s))
    (hsn : 0 ≤ s) :
    ∃ sig, Strategy.calculate_bollinger_bands close period 2 sqrtF =
        Except.ok (sig,
          (some (PVal.fin ((close.drop (close.length - period)).sum / (period : ℚ) + s * 2)),
           some (PVal.fin ((close.drop (close.length - period)).sum / (period : ℚ) - s * 2)))) ∧
      (close.drop (close.length - period)).sum / (period : ℚ) - s * 2 ≤
        (close.drop (close.length - period)).sum / (period : ℚ) ∧
      (close.drop (close.length - period)).sum / (period : ℚ) ≤
        (close.drop (close.length - period)).sum / (period : ℚ) + s * 2 := by
  have hn1 : 1 ≤ close.length := le_trans h1 h2
  have hmlen : (close.map PVal.fin).length = close.length := by simp
  have hsma : (rollingMean period (close.map PVal.fin))[close.length - 1]? =
      some (PVal.fin ((close.drop (close.length - period)).sum / (period : ℚ))) := by
    have hw : rwindow period (close.map PVal.fin) ((close.map PVal.fin).length - 1) =
        (close.drop (close.length - period)).map PVal.fin := by
      rw [rwindow_last _ _ (by rw [hmlen]; exact hn1), hmlen]
      exact (List.map_drop PVal.fin close (close.length - period)).symm
    have := rollingMean_last period (close.map PVal.fin) _ h1
      (by rw [hmlen]; exact h2) hw
    rwa [hmlen] at this
  have hstdlen : (rollingStd period sqrtF (close.map PVal.fin)).length = close.length := by
    rw [rollingStd_length, hmlen]
  have hstd : (rollingStd period sqrtF (close.map PVal.fin))[close.length - 1]? =
      some (PVal.fin s) := by
    rw [← hstdlen, ← List.getLast?_eq_getElem?]
    exact hs
  have hstd2 : ((rollingStd period sqrtF (close.map PVal.fin)).map
      (fun t => PVal.mul t (PVal.fin 2)))[close.length - 1]? =
      some (PVal.fin (s * 2)) := by
    rw [List.getElem?_map, hstd]
    rfl
  have hub : (List.zipWith PVal.add (rollingMean period (close.map PVal.fin))
      ((rollingStd period sqrtF (close.map PVal.fin)).map
        (fun t => PVal.mul t (PVal.fin 2))))[close.length - 1]? =
      some (PVal.fin ((close.drop (close.length - period)).sum / (period : ℚ) + s * 2)) := by
    rw [zipWith_getElem?_some PVal.add _ _ _ _ _ hsma hstd2]
    rfl
  have hlb : (List.zipWith PVal.sub (rollingMean period (close.map PVal.fin))
      ((rollingStd period sqrtF (close.map PVal.fin)).map
        (fun t => PVal.mul t (PVal.fin 2))))[close.length - 1]? =
      some (PVal.fin ((close.drop (close.length - period)).sum / (period : ℚ) - s * 2)) := by
    rw [zipWith_getElem?_some PVal.sub _ _ _ _ _ hsma hstd2]
    simp [PVal.sub, PVal.add, PVal.neg, sub_eq_add_neg]
  have hublen : (List.zipWith PVal.add (rollingMean period (close.map PVal.fin))
      ((rollingStd period sqrtF (close.map PVal.fin)).map
        (fun t => PVal.mul t (PVal.fin 2)))).length = close.length := by
    simp [rollingMean, rollingMeanMP_length, rollingStd_length]
  have hlblen : (List.zipWith PVal.sub (rollingMean period (close.map PVal.fin))
      ((rollingStd period sqrtF (close.map PVal.fin)).map
        (fun t => PVal.mul t (PVal.fin 2)))).length = close.length := by
    simp [rollingMean, rollingMeanMP_length, rollingStd_length]
  have hubl : (List.zipWith PVal.add (rollingMean period (close.map PVal.fin))
      ((rollingStd period sqrtF (close.map PVal.fin)).map
        (fun t => PVal.mul t (PVal.fin 2)))).getLast? =
      some (PVal.fin ((close.drop (close.length - period)).sum / (period : ℚ) + s * 2)) := by
    rw [List.getLast?_eq_getElem?, hublen]
    exact hub
  have hlbl : (List.zipWith PVal.sub (rollingMean period (close.map PVal.fin))
      ((rollingStd period sqrtF (close.map PVal.fin)).map
        (fun t => PVal.mul t (PVal.fin 2)))).getLast? =
      some (PVal.fin ((close.drop (close.length - period)).sum / (period : ℚ) - s * 2)) := by
    rw [List.getLast?_eq_getElem?, hlblen]
    exact hlb
  have hcne : close ≠ [] := by
    intro h
    rw [h] at hn1
    simp at hn1
  obtain ⟨c, hc⟩ := Option.isSome_iff_exists.mp (List.getLast?_isSome.mpr hcne)
  refine ⟨(if PVal.lt (PVal.fin c)
      (PVal.fin ((close.drop (close.length - period)).sum / (period : ℚ) - s * 2)) then "BUY"
    else if PVal.gt (PVal.fin c)
      (PVal.fin ((close.drop (close.length - period)).sum / (period : ℚ) + s * 2)) then "SELL"
    else "NEUTRAL"), ?_, by linarith [mul_nonneg hsn (by norm_num : (0:ℚ) ≤ 2)],
    by linarith [mul_nonneg hsn (by norm_num : (0:ℚ) ≤ 2)]⟩
  unfold Strategy.calculate_bollinger_bands
  rw [if_neg (by omega : ¬ close.length < period)]
  rw [show ilocLast close = Except.ok c from by unfold ilocLast; rw [hc]]
  simp only [Bind.bind, Except.bind]
  rw [show ilocLast (List.zipWith PVal.add (rollingMean period (close.map PVal.fin))
      ((rollingStd period sqrtF (close.map PVal.fin)).map
        (fun t => PVal.mul t (PVal.fin 2)))) =
      Except.ok (PVal.fin ((close.drop (close.length - period)).sum / (period : ℚ) + s * 2))
    from by unfold ilocLast; rw [hubl]]
  rw [show ilocLast (List.zipWith PVal.sub (rollingMean period (close.map PVal.fin))
      ((rollingStd period sqrtF (close.map PVal.fin)).map
        (fun t => PVal.mul t (PVal.fin 2)))) =
      Except.ok (PVal.fin ((close.drop (close.length - period)).sum / (period : ℚ) - s * 2))
    from by unfold ilocLast; rw [hlbl]]
  simp [pure, Except.pure]

/-- C8 witness: closes [1,3] with period 2 and the identity square root give
std 2, SMA 2, upper band 6 and lower band -2. -/
theorem C8_bollinger_band_order_witness :
    ∃ sig, Strategy.calculate_bollinger_bands [1, 3] 2 2 (fun x => x) =
        Except.ok (sig,
          (some (PVal.fin ((([(1:ℚ), 3]).drop ([(1:ℚ), 3].length - 2)).sum / ((2:ℕ) : ℚ) + 2 * 2)),
           some (PVal.fin ((([(1:ℚ), 3]).drop ([(1:ℚ), 3].length - 2)).sum / ((2:ℕ) : ℚ) - 2 * 2)))) ∧
      (([(1:ℚ), 3]).drop ([(1:ℚ), 3].length - 2)).sum / ((2:ℕ) : ℚ) - 2 * 2 ≤
        (([(1:ℚ), 3]).drop ([(1:ℚ), 3].length - 2)).sum / ((2:ℕ) : ℚ) ∧
      (([(1:ℚ), 3]).drop ([(1:ℚ), 3].length - 2)).sum / ((2:ℕ) : ℚ) ≤
        (([(1:ℚ), 3]).drop ([(1:ℚ), 3].length - 2)).sum / ((2:ℕ) : ℚ) + 2 * 2 :=
  C8_bollinger_band_order [1, 3] 2 (fun x => x) 2 (by norm_num) (by norm_num)
    (by with_unfolding_all decide) (by norm_num)

/-! C7: the SMA signal rules. -/

lemma rollingMean_at (p : ℕ) (xs : Series) (i : ℕ) (qs : List ℚ)
    (hp : 1 ≤ p) (hpi : p ≤ i + 1) (hin : i < xs.length)
    (hw : rwindow p xs i = qs.map PVal.fin) :
    (rollingMean p xs)[i]? = some (PVal.fin (qs.sum / (p : ℚ))) := by
  have hwl : (rwindow p xs i).length = p := rwindow_length _ _ _ hpi hin
  have hql : qs.length = p := by rw [hw] at hwl; simpa using hwl
  have hnonan : ∀ x ∈ rwindow p xs i, ¬ x.isNan = true := by
    rw [hw]
    intro x hx
    obtain ⟨q, _, rfl⟩ := List.mem_map.mp hx
    simp [PVal.isNan]
  have hp0 : ((p : ℚ)) ≠ 0 := by
    simpa using (by omega : ¬ (p = 0))
  rw [rollingMean, rollingMeanMP_getElem p p xs _ hin,
    rvalid_eq_rwindow _ _ _ hnonan, hw, psum_map_fin]
  simp only [List.length_map, hql]
  rw [if_pos ⟨le_refl p, hp⟩]
  simp [PVal.div, hp0]

lemma dropna_decomp (S : Series) (x : PVal) (hx : S.getLast? = some x)
    (hnx : ¬ x.isNan = true) : dropna S = dropna S.dropLast ++ [x] := by
  obtain ⟨S', rfl⟩ := List.getLast?_eq_some_iff.mp hx
  rw [List.dropLast_concat]
  unfold dropna
  rw [List.filter_append]
  congr 1
  simp only [List.filter]
  rw [show (!x.isNan) = true from by simp [Bool.not_eq_true']; simpa using hnx]

/-- C7 counterexample: on closes [4,0,3] with period 2 the latest close 3 is
strictly above the latest SMA 3/2, yet the market analyzer's SMA signal is
Bearish (it compares the latest SMA with the previous SMA, not the price
with the SMA). -/
theorem C7_cex_market_sma_signal :
    MK.sma_signal_rule (dropna (MK.calculate_sma [4, 0, 3] 2)) = "Bearish" ∧
    (MK.calculate_sma [4, 0, 3] 2).getLast? = some (PVal.fin (3 / 2)) ∧
    PVal.gt (PVal.fin 3) (PVal.fin (3 / 2)) = true := by
  refine ⟨by with_unfolding_all decide, by with_unfolding_all decide,
    by with_unfolding_all decide⟩

/-- C7 amended: the strategy module's SMA signal is BUY exactly when the
latest close exceeds the latest SMA (the arithmetic mean of the last
`period` closes), else SELL; the market analyzer's SMA signal instead
compares the latest SMA with the previous SMA: Bullish exactly when the
rolling mean increased. -/
theorem C7_sma_signal_rules (close : List ℚ) (period : ℕ) (h1 : 1 ≤ period) :
    (∀ c, period ≤ close.length → close.getLast? = some c →
      Strategy.calculate_sma close period = Except.ok
        ((if (close.drop (close.length - period)).sum / (period : ℚ) < c then "BUY"
          else "SELL"),
         some (PVal.fin ((close.drop (close.length - period)).sum / (period : ℚ))))) ∧
    (period + 1 ≤ close.length →
      MK.sma_signal_rule (dropna (MK.calculate_sma close period)) =
        (if (close.dropLast.drop (close.length - 1 - period)).sum / (period : ℚ) <
            (close.drop (close.length - period)).sum / (period : ℚ) then "Bullish"
         else "Bearish")) := by
  constructor
  · intro c h2 hc
    have hn1 : 1 ≤ close.length := le_trans h1 h2
    have hmlen : (close.map PVal.fin).length = close.length := by simp
    have hsma : (rollingMean period (close.map PVal.fin))[close.length - 1]? =
        some (PVal.fin ((close.drop (close.length - period)).sum / (period : ℚ))) := by
      apply rollingMean_at period _ _ _ h1 (by omega) (by rw [hmlen]; omega)
      rw [show close.length - 1 = (close.map PVal.fin).length - 1 from by rw [hmlen],
        rwindow_last _ _ (by rw [hmlen]; exact hn1), hmlen]
      exact (List.map_drop PVal.fin close (close.length - period)).symm
    have hsmal : (rollingMean period (close.map PVal.fin)).getLast? =
        some (PVal.fin ((close.drop (close.length - period)).sum / (period : ℚ))) := by
      rw [List.getLast?_eq_getElem?, rollingMean, rollingMeanMP_length, hmlen]
      exact hsma
    unfold Strategy.calculate_sma
    rw [if_neg (by omega : ¬ close.length < period)]
    rw [show ilocLast close = Except.ok c from by unfold ilocLast; rw [hc]]
    simp only [Bind.bind, Except.bind]
    rw [show ilocLast (rollingMean period (close.map PVal.fin)) =
        Except.ok (PVal.fin ((close.drop (close.length - period)).sum / (period : ℚ)))
      from by unfold ilocLast; rw [hsmal]]
    simp [pure, Except.pure, PVal.gt, PVal.lt]
  · intro h2
    have hn2 : 2 ≤ close.length := by omega
    have hmlen : (close.map PVal.fin).length = close.length := by simp
    have hSlen : (rollingMean period (close.map PVal.fin)).length = close.length := by
      rw [rollingMean, rollingMeanMP_length, hmlen]
    have hm1 : (rollingMean period (close.map PVal.fin))[close.length - 1]? =
        some (PVal.fin ((close.drop (close.length - period)).sum / (period : ℚ))) := by
      apply rollingMean_at period _ _ _ h1 (by omega) (by rw [hmlen]; omega)
      rw [show close.length - 1 = (close.map PVal.fin).length - 1 from by rw [hmlen],
        rwindow_last _ _ (by rw [hmlen]; omega), hmlen]
      exact (List.map_drop PVal.fin close (close.length - period)).symm
    have hm2 : (rollingMean period (close.map PVal.fin))[close.length - 2]? =
        some (PVal.fin ((close.dropLast.drop (close.length - 1 - period)).sum /
          (period : ℚ))) := by
      apply rollingMean_at period _ _ _ h1 (by omega) (by rw [hmlen]; omega)
      unfold rwindow
      rw [show close.length - 2 + 1 = close.length - 1 from by omega]
      rw [show (close.map PVal.fin).take (close.length - 1) =
          (close.dropLast).map PVal.fin from by
        rw [List.dropLast_eq_take, List.map_take]]
      rw [show close.length - 1 - period =
          ((close.dropLast.drop (close.length - 1 - period)).map PVal.fin).length -
            ((close.dropLast.drop (close.length - 1 - period)).map PVal.fin).length +
            (close.length - 1 - period) from by omega]
      simp only [Nat.sub_self, Nat.zero_add]
      exact (List.map_drop PVal.fin close.dropLast (close.length - 1 - period)).symm
    have hSlast : (rollingMean period (close.map PVal.fin)).getLast? =
        some (PVal.fin ((close.drop (close.length - period)).sum / (period : ℚ))) := by
      rw [List.getLast?_eq_getElem?, hSlen]
      exact hm1
    have hSdl : (rollingMean period (close.map PVal.fin)).dropLast.getLast? =
        some (PVal.fin ((close.dropLast.drop (close.length - 1 - period)).sum /
          (period : ℚ))) := by
      rw [List.getLast?_eq_getElem?, List.length_dropLast, hSlen,
        List.dropLast_eq_take, List.getElem?_take, hSlen]
      rw [if_pos (by omega)]
      rw [show close.length - 1 - 1 = close.length - 2 from by omega]
      exact hm2
    have hd1 : dropna (rollingMean period (close.map PVal.fin)) =
        dropna (rollingMean period (close.map PVal.fin)).dropLast ++
          [PVal.fin ((close.drop (close.length - period)).sum / (period : ℚ))] :=
      dropna_decomp _ _ hSlast (by simp [PVal.isNan])
    have hd2 : dropna (rollingMean period (close.map PVal.fin)).dropLast =
        dropna (rollingMean period (close.map PVal.fin)).dropLast.dropLast ++
          [PVal.fin ((close.dropLast.drop (close.length - 1 - period)).sum /
            (period : ℚ))] :=
      dropna_decomp _ _ hSdl (by simp [PVal.isNan])
    show MK.sma_signal_rule (dropna (rollingMean period (close.map PVal.fin))) = _
    rw [hd1, hd2]
    unfold MK.sma_signal_rule
    rw [if_pos (by simp)]
    rw [List.getLast?_concat, List.dropLast_concat, List.getLast?_concat]
    simp [PVal.gt, PVal.lt]

/-- C7 witness: the two SMA rules at closes [1,2,4] with period 2. -/
theorem C7_sma_signal_rules_witness :
    Strategy.calculate_sma [1, 2, 4] 2 = Except.ok
      ((if (([(1:ℚ), 2, 4]).drop ([(1:ℚ), 2, 4].length - 2)).sum / ((2:ℕ) : ℚ) < 4 then "BUY"
        else "SELL"),
       some (PVal.fin ((([(1:ℚ), 2, 4]).drop ([(1:ℚ), 2, 4].length - 2)).sum / ((2:ℕ) : ℚ)))) ∧
    MK.sma_signal_rule (dropna (MK.calculate_sma [1, 2, 4] 2)) =
      (if (([(1:ℚ), 2, 4]).dropLast.drop ([(1:ℚ), 2, 4].length - 1 - 2)).sum / ((2:ℕ) : ℚ) <
          (([(1:ℚ), 2, 4]).drop ([(1:ℚ), 2, 4].length - 2)).sum / ((2:ℕ) : ℚ) then "Bullish"
       else "Bearish") :=
  ⟨(C7_sma_signal_rules [1, 2, 4] 2 (by norm_num)).1 4 (by norm_num)
      (by with_unfolding_all decide),
   (C7_sma_signal_rules [1, 2, 4] 2 (by norm_num)).2 (by norm_num)⟩
